import Mathlib

/-!
Verification of the telemetry batching pipeline
(`src/utils/BatchProcessor.js`, `src/utils/PersistedMap.js`).

The JavaScript code is shallowly embedded: the `BatchProcessor` instance
state becomes the structure `BPState`; its methods become pure functions
from state to state.  The program is single-threaded and suspends only at
`await this.processBatch(...)` and at timer callbacks, so every event-loop
task (an `enqueue` call, the synchronous drain part of `flushAll`, one
poll-loop iteration, a delivery resolution, a delivery rejection, a
backoff-timer callback) is modelled as one atomic step of a labelled
transition system.

Ghost fields (recorded for specification purposes only, with no influence
on behaviour): `Batch.fromFlush` marks batches formed by `flushAll`;
`Batch.gid` together with `BPState.nextGid` models JavaScript heap object
identity of batch records; `StepResult.formed` records the item lists of
batches formed during a step; `StepResult.delay` records the backoff delay
of a timer scheduled during a step.
-/

namespace FPM

/-- An item passed to `BatchProcessor.enqueue`.  The code reads the fields
`key`, `timestamp`, `LCP`, `FCP` of the new item and `pageName`,
`timestamp`, `LCP`, `FCP` of items already pending; `Option` models
absent / `null` fields (`x != null` becomes `isSome`).  All remaining
fields are opaque payload, collapsed into `payload`. -/
structure Item where
  key : String
  pageName : Option String := none
  timestamp : Int
  LCP : Option Int := none
  FCP : Option Int := none
  payload : String := ""
deriving DecidableEq, Repr

/-- A queued batch `{ uuid: `"batch_${Date.now()}"`, batch, retryCount }`.
`fromFlush` and `gid` are ghost fields (see file header). -/
structure Batch where
  uuid : String
  batch : List Item
  retryCount : Nat
  fromFlush : Bool
  gid : Nat
deriving DecidableEq, Repr

/-- Constructor options after the clamping in the `BatchProcessor`
constructor (`Math.max(1, batchSize)` etc.). -/
structure Config where
  batchSize : Nat
  maxQueueSize : Nat
  ttl : Int
  maxRetry : Nat
deriving DecidableEq, Repr

/-- The clamping performed by the `BatchProcessor` constructor:
`batchSize`, `maxQueueSize` at least 1, `ttl` at least 3000 ms,
`maxRetry` at least 0. -/
def mkConfig (batchSize maxQueueSize : Nat) (ttl : Int) (maxRetry : Nat) : Config :=
  ⟨max 1 batchSize, max 1 maxQueueSize, max 3000 ttl, maxRetry⟩

/-- Lookup in an insertion-ordered association list (JavaScript `Map.get`). -/
def mlookup [DecidableEq κ] : List (κ × α) → κ → Option α
  | [], _ => none
  | (k, v) :: rest, k' => if k = k' then some v else mlookup rest k'

/-- JavaScript `Map.set`: update in place when the key is present
(keeping its position in iteration order), append otherwise. -/
def mapSet [DecidableEq κ] (m : List (κ × α)) (k : κ) (v : α) : List (κ × α) :=
  if (mlookup m k).isSome then
    m.map (fun p => if p.1 = k then (k, v) else p)
  else
    m ++ [(k, v)]

/-- JavaScript `Map.delete`: remove the entry for the key. -/
def mapDelete [DecidableEq κ] : List (κ × α) → κ → List (κ × α)
  | [], _ => []
  | (k, v) :: rest, k' => if k = k' then rest else (k, v) :: mapDelete rest k'

/-- In-memory state of one `BatchProcessor` instance.  The durable store
(`createPersistedMap` of `src/utils/PersistedMap.js`) maps a key to the
`Date.now()` of its last successful delivery; only its in-memory map is
relevant to the processor (persistence writes have no readers here).
`active` holds the batches handed to `processBatch` whose promise has not
yet settled; `backoff` holds the batches captured by a pending
`setTimeout` retry callback. -/
structure BPState where
  pending : List Item
  queue : List Batch
  processing : Bool
  store : List (String × Int)
  inFlight : List String
  active : List Batch
  backoff : List Batch
  nextGid : Nat
deriving DecidableEq, Repr

/-- Result of one event-loop task: the successor state, the deliveries
started (`processBatch` invocations), the item lists of batches formed,
and the delay of a backoff timer scheduled during the task. -/
structure StepResult where
  state : BPState
  invoked : List Batch
  formed : List (List Item)
  delay : Option Int
deriving DecidableEq, Repr

/-- Models `useInFlight().markInFlight(keys)`: `Set.add` for each key. -/
def markInFlight (fl : List String) (keys : List String) : List String :=
  keys.foldl (fun f k => if k ∈ f then f else f ++ [k]) fl

/-- Models `useInFlight().clearInFlight(keys)`: `Set.delete` for each key. -/
def clearInFlight (fl : List String) (keys : List String) : List String :=
  fl.filter (fun k => decide (k ∉ keys))

/-- Models `createPersistedMap(...).isExpired(key, ttl)` of
`src/utils/PersistedMap.js`: absent keys read as `0`, and the key is
expired when `Date.now() - last >= ttl`. -/
def isExpired (store : List (String × Int)) (k : String) (ttl now : Int) : Bool :=
  let last := (mlookup store k).getD 0
  decide (ttl ≤ now - last)

/-- Models `BatchProcessor._isCloseInTime(ts1, ts2)`: `Math.abs(ts1 - ts2) < 500`. -/
def isCloseInTime (ts1 ts2 : Int) : Bool :=
  decide ((ts1 - ts2).natAbs < 500)

/-- The coalescing scan at the top of `BatchProcessor.enqueue`: walk the
pending list; at the first entry whose `pageName` equals the new item's
`key` with timestamps closer than 500 ms, replace it by the new item
exactly when the old one has neither `LCP` nor `FCP` and the new one has
at least one of them, and return (`some` updated list).  `none` means the
loop fell through. -/
def coalesceScan (item : Item) : List Item → Option (List Item)
  | [] => none
  | old :: rest =>
    if old.pageName = some item.key ∧ isCloseInTime old.timestamp item.timestamp = true then
      let oldHasNav := old.LCP.isSome || old.FCP.isSome
      let newHasNav := item.LCP.isSome || item.FCP.isSome
      if oldHasNav = false ∧ newHasNav = true then
        some (item :: rest)
      else
        some (old :: rest)
    else
      (coalesceScan item rest).map (old :: ·)

/-- Models `BatchProcessor._flushNext` fused with the synchronous prefix of
`BatchProcessor._processNext` (up to `await this.processBatch(batch)`):
when not processing and the queue is non-empty, set the lock, shift the
head batch and invoke delivery on it. -/
def flushNext (s : BPState) : BPState × Option Batch :=
  if s.processing = true then (s, none)
  else
    match s.queue with
    | [] => (s, none)
    | b :: rest =>
      ({ s with processing := true, queue := rest, active := s.active ++ [b] }, some b)

/-- Models `BatchProcessor._enqueueBatch(batch)`: drop the batch when the queue
is full, otherwise mark its keys in-flight, push
`{ uuid, batch, retryCount: 0 }` and try to flush. -/
def enqueueBatch (cfg : Config) (now : Int) (items : List Item) (fromFlush : Bool)
    (s : BPState) : StepResult :=
  if cfg.maxQueueSize ≤ s.queue.length then
    ⟨s, [], [items], none⟩
  else
    let keys := items.map (·.key)
    let b : Batch := ⟨"batch_" ++ toString now, items, 0, fromFlush, s.nextGid⟩
    let s1 : BPState :=
      { s with inFlight := markInFlight s.inFlight keys,
               queue := s.queue ++ [b],
               nextGid := s.nextGid + 1 }
    let fr := flushNext s1
    ⟨fr.1, fr.2.toList, [items], none⟩

/-- Models `BatchProcessor.enqueue(item)`: coalesce, else apply the TTL and
in-flight admission checks, else push to pending and form a batch once
the pending list reaches `batchSize`. -/
def enqueue (cfg : Config) (now : Int) (item : Item) (s : BPState) : StepResult :=
  match coalesceScan item s.pending with
  | some p => ⟨{ s with pending := p }, [], [], none⟩
  | none =>
    if isExpired s.store item.key cfg.ttl now = false then ⟨s, [], [], none⟩
    else if item.key ∈ s.inFlight then ⟨s, [], [], none⟩
    else
      let p := s.pending ++ [item]
      if cfg.batchSize ≤ p.length then
        enqueueBatch cfg now (p.take cfg.batchSize) false { s with pending := p.drop cfg.batchSize }
      else
        ⟨{ s with pending := p }, [], [], none⟩

/-- The `while (this._pending.length > 0)` loop of `BatchProcessor.flushAll`,
with explicit fuel (each round splices at least one item off pending
whenever `batchSize ≥ 1`, exactly as in the code). -/
def flushDrainGo (cfg : Config) (now : Int) : Nat → BPState → StepResult
  | 0, s => ⟨s, [], [], none⟩
  | fuel + 1, s =>
    if s.pending.isEmpty then ⟨s, [], [], none⟩
    else
      let items := s.pending.take cfg.batchSize
      let r := enqueueBatch cfg now items true { s with pending := s.pending.drop cfg.batchSize }
      let r2 := flushDrainGo cfg now fuel r.state
      ⟨r2.state, r.invoked ++ r2.invoked, r.formed ++ r2.formed, none⟩

/-- The synchronous first phase of `BatchProcessor.flushAll`: splice all
of pending into batches and enqueue each. -/
def flushDrain (cfg : Config) (now : Int) (s : BPState) : StepResult :=
  flushDrainGo cfg now s.pending.length s

/-- The success continuation of `BatchProcessor._processNext` (after
`await this.processBatch(batch)` resolves): clear in-flight, record
`Date.now()` in the store for every key of the batch, release the lock
and flush the next batch. -/
def deliverySucceed (now : Int) (s : BPState) : StepResult :=
  match s.active with
  | [] => ⟨s, [], [], none⟩
  | b :: rest =>
    let keys := b.batch.map (·.key)
    let s1 : BPState :=
      { s with active := rest,
               inFlight := clearInFlight s.inFlight keys,
               store := keys.foldl (fun st k => mapSet st k now) s.store,
               processing := false }
    let fr := flushNext s1
    ⟨fr.1, fr.2.toList, [], none⟩

/-- The catch branch of `BatchProcessor._processNext` (the promise
rejected): clear in-flight; if `retryCount < maxRetry` schedule a timer
with delay `10 * 2 ** retryCount` capturing the batch (the lock stays
held until the timer fires), otherwise drop the batch, release the lock
and flush the next batch. -/
def deliveryFail (cfg : Config) (s : BPState) : StepResult :=
  match s.active with
  | [] => ⟨s, [], [], none⟩
  | b :: rest =>
    let keys := b.batch.map (·.key)
    let s1 : BPState := { s with active := rest, inFlight := clearInFlight s.inFlight keys }
    if b.retryCount < cfg.maxRetry then
      ⟨{ s1 with backoff := s1.backoff ++ [b] }, [], [], some (10 * 2 ^ b.retryCount)⟩
    else
      let fr := flushNext { s1 with processing := false }
      ⟨fr.1, fr.2.toList, [], none⟩

/-- A backoff-timer callback of `BatchProcessor._processNext`: release
the lock, unshift the batch with `retryCount + 1`, and flush. -/
def timerFire (s : BPState) : StepResult :=
  match s.backoff with
  | [] => ⟨s, [], [], none⟩
  | b :: rest =>
    let s1 : BPState :=
      { s with backoff := rest, processing := false,
               queue := ⟨b.uuid, b.batch, b.retryCount + 1, b.fromFlush, b.gid⟩ :: s.queue }
    let fr := flushNext s1
    ⟨fr.1, fr.2.toList, [], none⟩

/-- One event-loop task touching the processor: an `enqueue` call, the
drain phase of `flushAll`, one iteration of the `flushAll` poll loop, a
delivery resolution, a delivery rejection, or a backoff-timer callback. -/
inductive Label where
  | enq (now : Int) (item : Item)
  | flush (now : Int)
  | poll
  | ok (now : Int)
  | fail
  | timer
deriving DecidableEq, Repr

/-- The transition function of the labelled system. -/
def step (cfg : Config) (l : Label) (s : BPState) : StepResult :=
  match l with
  | .enq now item => enqueue cfg now item s
  | .flush now => flushDrain cfg now s
  | .poll =>
    let fr := flushNext s
    ⟨fr.1, fr.2.toList, [], none⟩
  | .ok now => deliverySucceed now s
  | .fail => deliveryFail cfg s
  | .timer => timerFire s

/-- Run a sequence of event-loop tasks. -/
def run (cfg : Config) (s : BPState) : List Label → BPState
  | [] => s
  | l :: ls => run cfg (step cfg l s).state ls

/-- All deliveries invoked along a sequence of tasks. -/
def invocationsFrom (cfg : Config) (s : BPState) : List Label → List Batch
  | [] => []
  | l :: ls => (step cfg l s).invoked ++ invocationsFrom cfg (step cfg l s).state ls

/-- The state right after the `BatchProcessor` constructor (with an empty
durable store). -/
def initState : BPState :=
  ⟨[], [], false, [], [], [], [], 0⟩

/-- Batches present anywhere in the system: queued, in delivery, or
captured by a backoff timer. -/
def allBatches (s : BPState) : List Batch :=
  s.queue ++ s.active ++ s.backoff

/-- Size discipline of a batch: batches formed by `enqueue` hold exactly
`batchSize` items; batches formed by the `flushAll` drain hold between 1
and `batchSize - 1` items (the single final splice of a pending list that
is always shorter than `batchSize`). -/
def GoodBatch (cfg : Config) (b : Batch) : Prop :=
  (b.fromFlush = false → b.batch.length = cfg.batchSize) ∧
  (b.fromFlush = true → 0 < b.batch.length ∧ b.batch.length < cfg.batchSize)

/-- The reachable-state invariant of the processor. -/
structure Inv (cfg : Config) (s : BPState) : Prop where
  pendingLt : s.pending.length < cfg.batchSize
  queueLe : s.queue.length ≤ cfg.maxQueueSize
  oneActive : s.active.length + s.backoff.length ≤ 1
  idleEmpty : s.processing = false → s.active = [] ∧ s.backoff = [] ∧ s.queue = []
  goodBatches : ∀ b ∈ allBatches s, GoodBatch cfg b
  gidFresh : ∀ b ∈ allBatches s, b.gid < s.nextGid

/-- A ghost identity `g` names no batch in the system and is stale (it
will never be handed out again). -/
def gidFree (g : Nat) (s : BPState) : Prop :=
  (∀ b ∈ allBatches s, b.gid ≠ g) ∧ g < s.nextGid

/-!
The capacity-bounded, LRU-evicting `createPersistedMap` variant defined
in `src/utils/BatchProcessor.js` (the durable store described by the
spec's §4.2): two insertion-ordered maps, `map` for the data and
`accessTime` for the last-access `Date.now()` per key.
-/

namespace LRU

/-- In-memory state of the capacity-bounded persisted map. -/
structure PMState (α : Type) where
  map : List (String × α)
  accessTime : List (String × Int)
deriving DecidableEq, Repr

/-- The minimum scan inside `deleteOldestEntry`: starting from the first
entry, keep the current entry only when its time is strictly smaller
(`if (ts < minTs)`), so the first entry attaining the minimum wins. -/
def oldestAux : (String × Int) → List (String × Int) → (String × Int)
  | best, [] => best
  | best, p :: rest => oldestAux (if p.2 < best.2 then p else best) rest

/-- The key selected by the scan in `deleteOldestEntry` (`null` on an
empty map becomes `none`). -/
def oldestKey : List (String × Int) → Option String
  | [] => none
  | p :: rest => some (oldestAux p rest).1

/-- Models `deleteOldestEntry()`: find the oldest key and delete it — but the
code guards with `if (oldestKey)`, a JavaScript truthiness test, so both
`null` and the empty string `""` skip the deletion and return `false`. -/
def deleteOldest (st : PMState α) : PMState α × Bool :=
  if st.map.length = 0 then (st, false)
  else
    match oldestKey st.accessTime with
    | none => (st, false)
    | some k =>
      if k = "" then (st, false)
      else (⟨mapDelete st.map k, mapDelete st.accessTime k⟩, true)

/-- Models `set(key, value)` of the capacity-bounded map: evict the oldest entry
when the key is new and the map is at capacity, then insert/update and
refresh the access time (the deferred persistence write has no effect on
the in-memory maps). -/
def pmSet (maxEntries : Nat) (now : Int) (st : PMState α) (k : String) (v : α) : PMState α :=
  let st1 := if (mlookup st.map k).isSome = false ∧ maxEntries ≤ st.map.length then
    (deleteOldest st).1
  else st
  ⟨mapSet st1.map k v, mapSet st1.accessTime k now⟩

/-- Models `get(key, defaultValue)`: touch the access time when present. -/
def pmGet (now : Int) (st : PMState α) (k : String) (defaultValue : α) : PMState α × α :=
  match mlookup st.map k with
  | some v => (⟨st.map, mapSet st.accessTime k now⟩, v)
  | none => (st, defaultValue)

/-- Models `delete(key)`: remove the entry and its access time when present. -/
def pmDelete (st : PMState α) (k : String) : PMState α × Bool :=
  if (mlookup st.map k).isSome then
    (⟨mapDelete st.map k, mapDelete st.accessTime k⟩, true)
  else
    (st, false)

mutual

/-- A parsed JSON value as far as the restoration path inspects it
(`Array.isArray`, array destructuring, `typeof ts === 'number'`); JSON
objects are opaque non-array values here and are subsumed by `str`. -/
inductive JVal where
  | null
  | bool (b : Bool)
  | num (n : Int)
  | str (s : String)
  | arr (elements : JArr)
deriving DecidableEq, Repr

/-- A parsed JSON array (spelled out so equality stays decidable). -/
inductive JArr where
  | nil
  | cons (head : JVal) (tail : JArr)
deriving DecidableEq, Repr

end

/-- Length of a parsed JSON array. -/
def JArr.length : JArr → Nat
  | .nil => 0
  | .cons _ tl => tl.length + 1

/-- State built by the restoration loop; JavaScript `Map` accepts keys of
any type, so keys here are arbitrary parsed values. -/
structure RState where
  map : List (JVal × JVal)
  accessTime : List (JVal × Int)
deriving DecidableEq, Repr

/-- Models `typeof ts === 'number' ? ts : Date.now()` applied to the third
destructured element of an entry. -/
def entryTs (now : Int) : JArr → Int
  | .cons (JVal.num n) _ => n
  | _ => now

/-- The per-entry validation of the restoration loop:
`Array.isArray(entry) && entry.length >= 2`. -/
def entryValid : JVal → Bool
  | .arr es => decide (2 ≤ es.length)
  | _ => false

/-- One iteration of the restoration `forEach`: a valid entry is
destructured as `[k, v, ts]` and stored; an invalid entry throws into the
per-entry `catch`, which logs it and moves on, leaving the state
untouched. -/
def restoreOne (now : Int) (st : RState) (e : JVal) : RState :=
  match e with
  | .arr (.cons k (.cons v rest)) =>
    ⟨mapSet st.map k v, mapSet st.accessTime k (entryTs now rest)⟩
  | _ => st

/-- The whole restoration loop over the parsed persisted array. -/
def restoreAll (now : Int) (es : List JVal) : RState :=
  es.foldl (restoreOne now) ⟨[], []⟩

end LRU

/-! ### Basic lemmas about the association-map operations -/

theorem mlookup_isSome_of_mem [DecidableEq κ] {m : List (κ × α)} {k : κ} {v : α}
    (h : (k, v) ∈ m) : (mlookup m k).isSome = true := by
  induction m with
  | nil => simp at h
  | cons p rest ih =>
    obtain ⟨k1, v1⟩ := p
    by_cases hk : k1 = k
    · subst hk; simp [mlookup]
    · rcases List.mem_cons.mp h with h1 | h1
      · exact absurd (congrArg Prod.fst h1).symm hk
      · simp [mlookup, hk, ih h1]

theorem mapSet_of_isSome [DecidableEq κ] {m : List (κ × α)} {k : κ} (v : α)
    (h : (mlookup m k).isSome = true) :
    mapSet m k v = m.map (fun p => if p.1 = k then (k, v) else p) := by
  unfold mapSet
  rw [h]
  simp

theorem mapSet_of_none [DecidableEq κ] {m : List (κ × α)} {k : κ} (v : α)
    (h : mlookup m k = none) : mapSet m k v = m ++ [(k, v)] := by
  unfold mapSet
  rw [h]
  simp

theorem mapSet_length [DecidableEq κ] (m : List (κ × α)) (k : κ) (v : α) :
    (mapSet m k v).length =
      if (mlookup m k).isSome then m.length else m.length + 1 := by
  cases hm : mlookup m k with
  | some w =>
    rw [mapSet_of_isSome v (by simp [hm])]
    simp [hm]
  | none =>
    rw [mapSet_of_none v hm]
    simp [hm]

theorem mapDelete_length_le [DecidableEq κ] (m : List (κ × α)) (k : κ) :
    (mapDelete m k).length ≤ m.length := by
  induction m with
  | nil => simp [mapDelete]
  | cons p rest ih =>
    obtain ⟨k1, v1⟩ := p
    by_cases hk : k1 = k
    · simp [mapDelete, hk]
    · simp only [mapDelete, if_neg hk, List.length_cons]
      omega

theorem mapDelete_length_of_isSome [DecidableEq κ] {m : List (κ × α)} {k : κ}
    (h : (mlookup m k).isSome = true) : (mapDelete m k).length + 1 = m.length := by
  induction m with
  | nil => simp [mlookup] at h
  | cons p rest ih =>
    obtain ⟨k1, v1⟩ := p
    by_cases hk : k1 = k
    · simp [mapDelete, hk]
    · have h' : (mlookup rest k).isSome = true := by
        simpa [mlookup, hk] using h
      simp [mapDelete, hk, ih h']

theorem mlookup_append [DecidableEq κ] (m1 m2 : List (κ × α)) (k : κ) :
    mlookup (m1 ++ m2) k =
      match mlookup m1 k with
      | some v => some v
      | none => mlookup m2 k := by
  induction m1 with
  | nil => simp [mlookup]
  | cons p rest ih =>
    obtain ⟨k1, v1⟩ := p
    by_cases hk : k1 = k
    · subst hk; simp [mlookup]
    · simp [mlookup, hk, ih]

theorem replFn_head [DecidableEq κ] (k k1 : κ) (v : α) (v1 : α) :
    (fun p : κ × α => if p.1 = k then (k, v) else p) (k1, v1)
      = if k1 = k then (k, v) else (k1, v1) := rfl

theorem mlookup_mapRepl [DecidableEq κ] {m : List (κ × α)} {k : κ} (v : α)
    (h : (mlookup m k).isSome = true) :
    mlookup (m.map (fun p => if p.1 = k then (k, v) else p)) k = some v := by
  induction m with
  | nil => simp [mlookup] at h
  | cons p rest ih =>
    obtain ⟨k1, v1⟩ := p
    simp only [List.map_cons]
    by_cases hk : k1 = k
    · subst hk
      rw [if_pos (show ((k1, v1) : κ × α).1 = k1 from rfl)]
      simp [mlookup]
    · rw [if_neg (show ¬ ((k1, v1) : κ × α).1 = k from hk)]
      have h' : (mlookup rest k).isSome = true := by
        simpa [mlookup, hk] using h
      simp [mlookup, hk, ih h']

theorem mlookup_mapRepl_ne [DecidableEq κ] {m : List (κ × α)} {k k2 : κ} (v : α)
    (hne : k ≠ k2) :
    mlookup (m.map (fun p => if p.1 = k then (k, v) else p)) k2 = mlookup m k2 := by
  induction m with
  | nil => simp [mlookup]
  | cons p rest ih =>
    obtain ⟨k1, v1⟩ := p
    simp only [List.map_cons]
    by_cases hk : k1 = k
    · subst hk
      rw [if_pos (show ((k1, v1) : κ × α).1 = k1 from rfl)]
      simp [mlookup, hne, ih]
    · rw [if_neg (show ¬ ((k1, v1) : κ × α).1 = k from hk)]
      simp [mlookup, ih]

theorem mlookup_mapSet_self [DecidableEq κ] (m : List (κ × α)) (k : κ) (v : α) :
    mlookup (mapSet m k v) k = some v := by
  cases hm : mlookup m k with
  | some w =>
    rw [mapSet_of_isSome v (by simp [hm])]
    exact mlookup_mapRepl v (by simp [hm])
  | none =>
    rw [mapSet_of_none v hm, mlookup_append, hm]
    simp [mlookup]

theorem mlookup_mapSet_ne [DecidableEq κ] (m : List (κ × α)) {k k2 : κ} (v : α)
    (hne : k ≠ k2) : mlookup (mapSet m k v) k2 = mlookup m k2 := by
  cases hm : mlookup m k with
  | some w =>
    rw [mapSet_of_isSome v (by simp [hm])]
    exact mlookup_mapRepl_ne v hne
  | none =>
    rw [mapSet_of_none v hm, mlookup_append]
    cases h2 : mlookup m k2 with
    | some w2 => simp
    | none => simp [mlookup, fun h : k = k2 => hne h]

theorem mlookup_mapSet_isSome [DecidableEq κ] (m : List (κ × α)) (k k2 : κ) (v : α)
    (h : (mlookup m k2).isSome = true) :
    (mlookup (mapSet m k v) k2).isSome = true := by
  by_cases hk : k = k2
  · subst hk; simp [mlookup_mapSet_self]
  · rw [mlookup_mapSet_ne m v hk]; exact h

theorem mlookup_isSome_of_fst_mem [DecidableEq κ] {m : List (κ × α)} {k : κ}
    (h : k ∈ m.map Prod.fst) : (mlookup m k).isSome = true := by
  rcases List.mem_map.mp h with ⟨p, hp, hfst⟩
  obtain ⟨k1, v1⟩ := p
  cases hfst
  exact mlookup_isSome_of_mem hp

theorem mlookup_mapDelete_isSome [DecidableEq κ] {m : List (κ × α)} {k k2 : κ}
    (h : (mlookup (mapDelete m k2) k).isSome = true) :
    (mlookup m k).isSome = true := by
  induction m with
  | nil => simp [mapDelete, mlookup] at h
  | cons p rest ih =>
    obtain ⟨k1, v1⟩ := p
    by_cases h2 : k1 = k2
    · rw [mapDelete, if_pos h2] at h
      simp only [mlookup]
      by_cases hk : k1 = k
      · simp [hk]
      · simp [hk, h]
    · rw [mapDelete, if_neg h2] at h
      by_cases hk : k1 = k
      · simp [mlookup, hk]
      · rw [mlookup, if_neg hk] at h ⊢
        exact ih h

/-! ### Lemmas about the LRU eviction scan -/

namespace LRU

theorem oldestAux_mem (rest : List (String × Int)) :
    ∀ best, oldestAux best rest = best ∨ oldestAux best rest ∈ rest := by
  induction rest with
  | nil => intro best; left; rfl
  | cons p tl ih =>
    intro best
    rw [oldestAux]
    rcases ih (if p.2 < best.2 then p else best) with h | h
    · rw [h]
      by_cases hc : p.2 < best.2
      · right; rw [if_pos hc]; exact List.mem_cons_self _ _
      · left; rw [if_neg hc]
    · right; exact List.mem_cons_of_mem _ h

theorem oldestAux_min (rest : List (String × Int)) :
    ∀ best, (oldestAux best rest).2 ≤ best.2 ∧ ∀ p ∈ rest, (oldestAux best rest).2 ≤ p.2 := by
  induction rest with
  | nil =>
    intro best
    exact ⟨le_refl _, by simp⟩
  | cons p tl ih =>
    intro best
    rw [oldestAux]
    by_cases hc : p.2 < best.2
    · rw [if_pos hc]
      obtain ⟨h1, h2⟩ := ih p
      refine ⟨le_trans h1 (le_of_lt hc), ?_⟩
      intro q hq
      rcases List.mem_cons.mp hq with hq | hq
      · subst hq; exact h1
      · exact h2 q hq
    · rw [if_neg hc]
      obtain ⟨h1, h2⟩ := ih best
      refine ⟨h1, ?_⟩
      intro q hq
      rcases List.mem_cons.mp hq with hq | hq
      · subst hq; exact le_trans h1 (not_lt.mp hc)
      · exact h2 q hq

theorem oldestKey_spec (p0 : String × Int) (tl : List (String × Int)) :
    ∃ q : String × Int, oldestKey (p0 :: tl) = some q.1 ∧ q ∈ p0 :: tl ∧
      ∀ p ∈ p0 :: tl, q.2 ≤ p.2 := by
  refine ⟨oldestAux p0 tl, rfl, ?_, ?_⟩
  · rcases oldestAux_mem tl p0 with h | h
    · rw [h]; exact List.mem_cons_self _ _
    · exact List.mem_cons_of_mem _ h
  · intro p hp
    obtain ⟨h1, h2⟩ := oldestAux_min tl p0
    rcases List.mem_cons.mp hp with hq | hq
    · subst hq; exact h1
    · exact h2 p hq

theorem pmSet_of_isSome {α} (maxEntries : Nat) (now : Int) (st : PMState α) (k : String)
    (v : α) (h : (mlookup st.map k).isSome = true) :
    pmSet maxEntries now st k v = ⟨mapSet st.map k v, mapSet st.accessTime k now⟩ := by
  unfold pmSet
  rw [h]
  simp

theorem pmSet_of_below {α} (maxEntries : Nat) (now : Int) (st : PMState α) (k : String)
    (v : α) (h : st.map.length < maxEntries) :
    pmSet maxEntries now st k v = ⟨mapSet st.map k v, mapSet st.accessTime k now⟩ := by
  unfold pmSet
  have hcond : ¬ ((mlookup st.map k).isSome = false ∧ maxEntries ≤ st.map.length) := by
    rintro ⟨_, hc⟩
    omega
  rw [if_neg hcond]

theorem pmSet_of_evict {α} (maxEntries : Nat) (now : Int) (st : PMState α) (k : String)
    (v : α) (hnew : (mlookup st.map k).isSome = false)
    (hcap : maxEntries ≤ st.map.length) :
    pmSet maxEntries now st k v =
      ⟨mapSet (deleteOldest st).1.map k v, mapSet (deleteOldest st).1.accessTime k now⟩ := by
  unfold pmSet
  rw [if_pos ⟨hnew, hcap⟩]

theorem deleteOldest_spec {α} (st : PMState α) (p0 : String × Int)
    (tl : List (String × Int)) (hat : st.accessTime = p0 :: tl)
    (hne : ¬ st.map.length = 0)
    (hkeys : ∀ k2 ∈ st.accessTime.map Prod.fst, k2 ≠ "") :
    ∃ q : String × Int, q ∈ st.accessTime ∧ (∀ p ∈ st.accessTime, q.2 ≤ p.2) ∧
      oldestKey st.accessTime = some q.1 ∧
      deleteOldest st = (⟨mapDelete st.map q.1, mapDelete st.accessTime q.1⟩, true) := by
  obtain ⟨q, hok, hmem, hmin⟩ := oldestKey_spec p0 tl
  have hok' : oldestKey st.accessTime = some q.1 := by rw [hat]; exact hok
  have hmem' : q ∈ st.accessTime := by rw [hat]; exact hmem
  have hmin' : ∀ p ∈ st.accessTime, q.2 ≤ p.2 := by rw [hat]; exact hmin
  have hq : q.1 ≠ "" := hkeys q.1 (List.mem_map_of_mem Prod.fst hmem')
  refine ⟨q, hmem', hmin', hok', ?_⟩
  unfold deleteOldest
  rw [if_neg hne, hok']
  simp [hq]

theorem pmGet_map_eq {α} (now : Int) (st : PMState α) (k : String) (d : α) :
    (pmGet now st k d).1.map = st.map := by
  unfold pmGet
  cases mlookup st.map k <;> rfl

theorem pmDelete_length_le {α} (st : PMState α) (k : String) :
    (pmDelete st k).1.map.length ≤ st.map.length := by
  unfold pmDelete
  by_cases h : (mlookup st.map k).isSome = true
  · rw [if_pos h]
    exact mapDelete_length_le st.map k
  · rw [if_neg h]

theorem pmSet_length_le {α} (maxEntries : Nat) (now : Int) (st : PMState α) (k : String)
    (v : α) (hmax : 1 ≤ maxEntries) (hle : st.map.length ≤ maxEntries)
    (hsync : st.map.map Prod.fst = st.accessTime.map Prod.fst)
    (hkeys : ∀ k2 ∈ st.accessTime.map Prod.fst, k2 ≠ "") :
    (pmSet maxEntries now st k v).map.length ≤ maxEntries := by
  by_cases hs : (mlookup st.map k).isSome = true
  · rw [pmSet_of_isSome maxEntries now st k v hs]
    simp only [mapSet_length, hs, if_true]
    exact hle
  · by_cases hcap : maxEntries ≤ st.map.length
    · have hnew : (mlookup st.map k).isSome = false := by
        cases hl : mlookup st.map k with
        | some w => rw [hl] at hs; simp at hs
        | none => rfl
      rw [pmSet_of_evict maxEntries now st k v hnew hcap]
      have hne : ¬ st.map.length = 0 := by omega
      have hlen : st.map.length = st.accessTime.length := by
        have := congrArg List.length hsync
        simpa using this
      cases hat : st.accessTime with
      | nil =>
        rw [hat] at hlen
        simp at hlen
        exact absurd (by simp [hlen] : st.map.length = 0) hne
      | cons p0 tl =>
        obtain ⟨q, hmem, hmin, hok, hdel⟩ := deleteOldest_spec st p0 tl hat hne hkeys
        rw [hdel]
        have hqmap : (mlookup st.map q.1).isSome = true := by
          apply mlookup_isSome_of_fst_mem
          rw [hsync]
          exact List.mem_map_of_mem Prod.fst hmem
        have hdl : (mapDelete st.map q.1).length + 1 = st.map.length :=
          mapDelete_length_of_isSome hqmap
        have hknot : (mlookup (mapDelete st.map q.1) k).isSome = false := by
          cases hl : (mlookup (mapDelete st.map q.1) k).isSome with
          | false => rfl
          | true => rw [mlookup_mapDelete_isSome hl] at hs; simp at hs
        simp only [mapSet_length, hknot]
        simp only [Bool.false_eq_true, if_false]
        omega
    · push_neg at hcap
      rw [pmSet_of_below maxEntries now st k v hcap]
      simp only [mapSet_length, hs]
      simp only [Bool.false_eq_true, if_false]
      omega

theorem restoreOne_invalid (now : Int) (st : RState) (bad : JVal)
    (h : entryValid bad = false) : restoreOne now st bad = st := by
  cases bad with
  | null => rfl
  | bool b => rfl
  | num n => rfl
  | str s => rfl
  | arr es =>
    cases es with
    | nil => rfl
    | cons hd tl =>
      cases tl with
      | nil => rfl
      | cons hd2 tl2 =>
        exfalso
        simp [entryValid, JArr.length] at h

theorem restoreOne_isSome (now : Int) (st : RState) (e : JVal) (k : JVal)
    (h : (mlookup st.map k).isSome = true) :
    (mlookup (restoreOne now st e).map k).isSome = true := by
  cases e with
  | null => exact h
  | bool b => exact h
  | num n => exact h
  | str s => exact h
  | arr es =>
    cases es with
    | nil => exact h
    | cons hd tl =>
      cases tl with
      | nil => exact h
      | cons hd2 tl2 => exact mlookup_mapSet_isSome st.map hd k hd2 h

theorem restoreFold_isSome (now : Int) (k : JVal) (es : List JVal) :
    ∀ st : RState,
      ((mlookup st.map k).isSome = true ∨
        ∃ v rest, JVal.arr (.cons k (.cons v rest)) ∈ es) →
      (mlookup (es.foldl (restoreOne now) st).map k).isSome = true := by
  induction es with
  | nil =>
    intro st h
    rcases h with h | ⟨v, rest, h⟩
    · exact h
    · simp at h
  | cons e tl ih =>
    intro st h
    rw [List.foldl_cons]
    apply ih
    rcases h with h | ⟨v, rest, h⟩
    · exact Or.inl (restoreOne_isSome now st e k h)
    · rcases List.mem_cons.mp h with he | he
      · left
        rw [← he]
        simp only [restoreOne]
        simp [mlookup_mapSet_self]
      · exact Or.inr ⟨v, rest, he⟩

end LRU

/-! ### Lemmas about the drain machinery -/

theorem flushNext_cases (s : BPState) :
    (s.processing = true ∧ flushNext s = (s, none)) ∨
    (s.processing = false ∧ s.queue = [] ∧ flushNext s = (s, none)) ∨
    (∃ b rest, s.processing = false ∧ s.queue = b :: rest ∧
      flushNext s =
        ({ s with processing := true, queue := rest, active := s.active ++ [b] }, some b)) := by
  unfold flushNext
  by_cases h : s.processing = true
  · left
    exact ⟨h, by rw [if_pos h]⟩
  · have h' : s.processing = false := by
      cases hp : s.processing
      · rfl
      · exact absurd hp h
    cases hq : s.queue with
    | nil =>
      right; left
      refine ⟨h', rfl, ?_⟩
      rw [if_neg h]
    | cons b rest =>
      right; right
      refine ⟨b, rest, h', rfl, ?_⟩
      rw [if_neg h]

theorem flushNext_frame (s : BPState) :
    (flushNext s).1.pending = s.pending ∧ (flushNext s).1.store = s.store ∧
    (flushNext s).1.inFlight = s.inFlight ∧ (flushNext s).1.backoff = s.backoff ∧
    (flushNext s).1.nextGid = s.nextGid := by
  rcases flushNext_cases s with ⟨_, he⟩ | ⟨_, _, he⟩ | ⟨b, rest, _, _, he⟩ <;>
    rw [he] <;> exact ⟨rfl, rfl, rfl, rfl, rfl⟩

theorem flushNext_batches_mem (s : BPState) :
    ∀ b ∈ allBatches (flushNext s).1, b ∈ allBatches s := by
  rcases flushNext_cases s with ⟨_, he⟩ | ⟨_, _, he⟩ | ⟨b0, rest, _, hq, he⟩ <;> rw [he]
  · intro b hb; exact hb
  · intro b hb; exact hb
  · intro b hb
    simp only [allBatches, List.mem_append, List.mem_cons, List.mem_singleton] at hb ⊢
    rcases hb with (hb | hb | hb) | hb
    · exact Or.inl (Or.inl (by rw [hq]; exact List.mem_cons_of_mem _ hb))
    · exact Or.inl (Or.inr hb)
    · rcases hb with hb | hb
      · subst hb
        exact Or.inl (Or.inl (by rw [hq]; exact List.mem_cons_self _ _))
      · simp at hb
    · exact Or.inr hb

theorem flushNext_invoked_mem (s : BPState) (b : Batch) (h : (flushNext s).2 = some b) :
    b ∈ allBatches s := by
  rcases flushNext_cases s with ⟨_, he⟩ | ⟨_, _, he⟩ | ⟨b0, rest, _, hq, he⟩ <;> rw [he] at h
  · simp at h
  · simp at h
  · simp at h
    subst h
    simp [allBatches, hq]

theorem enqueueBatch_eq_full (cfg : Config) (now : Int) (items : List Item) (ff : Bool)
    (s : BPState) (h : cfg.maxQueueSize ≤ s.queue.length) :
    enqueueBatch cfg now items ff s = ⟨s, [], [items], none⟩ := by
  unfold enqueueBatch
  rw [if_pos h]

theorem enqueueBatch_eq_push (cfg : Config) (now : Int) (items : List Item) (ff : Bool)
    (s : BPState) (h : ¬ cfg.maxQueueSize ≤ s.queue.length) :
    enqueueBatch cfg now items ff s =
      ⟨(flushNext
          { s with
            inFlight := markInFlight s.inFlight (items.map (fun i => i.key)),
            queue := s.queue ++ [⟨"batch_" ++ toString now, items, 0, ff, s.nextGid⟩],
            nextGid := s.nextGid + 1 }).1,
        (flushNext
          { s with
            inFlight := markInFlight s.inFlight (items.map (fun i => i.key)),
            queue := s.queue ++ [⟨"batch_" ++ toString now, items, 0, ff, s.nextGid⟩],
            nextGid := s.nextGid + 1 }).2.toList,
        [items], none⟩ := by
  unfold enqueueBatch
  rw [if_neg h]

theorem enqueueBatch_ok (cfg : Config) (now : Int) (items : List Item) (ff : Bool)
    (s : BPState)
    (hpend : s.pending.length < cfg.batchSize)
    (hq : s.queue.length ≤ cfg.maxQueueSize)
    (hone : s.active.length + s.backoff.length ≤ 1)
    (hidle : s.processing = false → s.active = [] ∧ s.backoff = [] ∧ s.queue = [])
    (hgood : ∀ b ∈ allBatches s, GoodBatch cfg b)
    (hgid : ∀ b ∈ allBatches s, b.gid < s.nextGid)
    (hitems : (ff = false → items.length = cfg.batchSize) ∧
      (ff = true → 0 < items.length ∧ items.length < cfg.batchSize)) :
    Inv cfg (enqueueBatch cfg now items ff s).state ∧
    (∀ b ∈ (enqueueBatch cfg now items ff s).invoked, GoodBatch cfg b) ∧
    s.nextGid ≤ (enqueueBatch cfg now items ff s).state.nextGid ∧
    (enqueueBatch cfg now items ff s).state.pending = s.pending := by
  by_cases hfull : cfg.maxQueueSize ≤ s.queue.length
  · rw [enqueueBatch_eq_full cfg now items ff s hfull]
    exact ⟨⟨hpend, hq, hone, hidle, hgood, hgid⟩, by simp, le_refl _, rfl⟩
  · rw [enqueueBatch_eq_push cfg now items ff s hfull]
    set newb : Batch := ⟨"batch_" ++ toString now, items, 0, ff, s.nextGid⟩ with hnewb
    set s1 : BPState :=
      { s with inFlight := markInFlight s.inFlight (items.map (·.key)),
               queue := s.queue ++ [newb],
               nextGid := s.nextGid + 1 } with hs1
    have hnewgood : GoodBatch cfg newb := by
      constructor
      · intro hffn
        exact hitems.1 hffn
      · intro hfft
        exact hitems.2 hfft
    have hmem1 : ∀ b : Batch, b ∈ allBatches s1 → b = newb ∨ b ∈ allBatches s := by
      intro b hb
      have he : allBatches s1 = (s.queue ++ [newb]) ++ s.active ++ s.backoff := rfl
      rw [he] at hb
      simp only [List.mem_append, List.mem_singleton] at hb
      simp only [allBatches, List.mem_append]
      tauto
    have hgood1 : ∀ b ∈ allBatches s1, GoodBatch cfg b := by
      intro b hb
      rcases hmem1 b hb with hb | hb
      · subst hb; exact hnewgood
      · exact hgood b hb
    have hgid1 : ∀ b ∈ allBatches s1, b.gid < s1.nextGid := by
      intro b hb
      have hng : s1.nextGid = s.nextGid + 1 := rfl
      rw [hng]
      rcases hmem1 b hb with hb | hb
      · subst hb; exact Nat.lt_succ_self _
      · exact lt_trans (hgid b hb) (Nat.lt_succ_self _)
    rcases flushNext_cases s1 with ⟨hp, hfe⟩ | ⟨hp, hqe, hfe⟩ | ⟨b, rest, hp, hqe, hfe⟩
    · rw [hfe]
      have hp' : s.processing = true := hp
      refine ⟨⟨hpend, ?_, hone, ?_, hgood1, hgid1⟩, by simp, Nat.le_succ _, rfl⟩
      · have : s1.queue.length = s.queue.length + 1 := by simp [hs1]
        simp only [this]
        omega
      · intro habs
        rw [hp'] at habs
        exact absurd habs (by simp)
    · exfalso
      have : s1.queue = s.queue ++ [newb] := rfl
      rw [this] at hqe
      simp at hqe
    · have hp' : s.processing = false := hp
      obtain ⟨hact, hbk, hqnil⟩ := hidle hp'
      have hq1 : s1.queue = [newb] := by
        simp [hs1, hqnil]
      rw [hq1] at hqe
      have hb : b = newb := by
        injection hqe with h1 h2
        exact h1.symm
      have hrest : rest = [] := by
        injection hqe with h1 h2
        exact h2.symm
      subst hb
      subst hrest
      rw [hfe]
      refine ⟨⟨hpend, by simp, ?_, by intro habs; simp at habs, ?_, ?_⟩, ?_, Nat.le_succ _, rfl⟩
      · have h1 : s1.active = s.active := rfl
        have h2 : s1.backoff = s.backoff := rfl
        simp [h1, h2, hact, hbk]
      · intro b2 hb2
        simp only [allBatches, List.mem_append] at hb2
        have h1 : s1.active = s.active := rfl
        have h2 : s1.backoff = s.backoff := rfl
        rcases hb2 with (hb2 | hb2) | hb2
        · simp at hb2
        · rw [h1, hact] at hb2
          simp at hb2
          subst hb2
          exact hnewgood
        · rw [h2, hbk] at hb2
          simp at hb2
      · intro b2 hb2
        simp only [allBatches, List.mem_append] at hb2
        have h1 : s1.active = s.active := rfl
        have h2 : s1.backoff = s.backoff := rfl
        rcases hb2 with (hb2 | hb2) | hb2
        · simp at hb2
        · rw [h1, hact] at hb2
          simp at hb2
          subst hb2
          exact Nat.lt_succ_self _
        · rw [h2, hbk] at hb2
          simp at hb2
      · intro b2 hb2
        simp at hb2
        subst hb2
        exact hnewgood

theorem enqueueBatch_formed (cfg : Config) (now : Int) (items : List Item) (ff : Bool)
    (s : BPState) : (enqueueBatch cfg now items ff s).formed = [items] := by
  by_cases h : cfg.maxQueueSize ≤ s.queue.length
  · rw [enqueueBatch_eq_full cfg now items ff s h]
  · rw [enqueueBatch_eq_push cfg now items ff s h]

theorem flushNext_ok_of (cfg : Config) (s1 : BPState)
    (hpend1 : s1.pending.length < cfg.batchSize)
    (hq1 : s1.queue.length ≤ cfg.maxQueueSize)
    (hact1 : s1.active = []) (hbk1 : s1.backoff = [])
    (hgq : ∀ b ∈ s1.queue, GoodBatch cfg b)
    (hgidq : ∀ b ∈ s1.queue, b.gid < s1.nextGid) :
    Inv cfg (flushNext s1).1 ∧
    (∀ b, (flushNext s1).2 = some b → GoodBatch cfg b) ∧
    (flushNext s1).1.nextGid = s1.nextGid := by
  have hgood1 : ∀ b ∈ allBatches s1, GoodBatch cfg b := by
    intro b hb
    simp only [allBatches, List.mem_append] at hb
    rcases hb with (hb | hb) | hb
    · exact hgq b hb
    · rw [hact1] at hb; simp at hb
    · rw [hbk1] at hb; simp at hb
  have hgid1 : ∀ b ∈ allBatches s1, b.gid < s1.nextGid := by
    intro b hb
    simp only [allBatches, List.mem_append] at hb
    rcases hb with (hb | hb) | hb
    · exact hgidq b hb
    · rw [hact1] at hb; simp at hb
    · rw [hbk1] at hb; simp at hb
  rcases flushNext_cases s1 with ⟨hp, he⟩ | ⟨hp, hqe, he⟩ | ⟨b, rest, hp, hqe, he⟩
  · rw [he]
    refine ⟨⟨hpend1, hq1, ?_, ?_, hgood1, hgid1⟩, by simp, rfl⟩
    · simp [hact1, hbk1]
    · intro habs
      rw [hp] at habs
      exact absurd habs (by simp)
  · rw [he]
    refine ⟨⟨hpend1, hq1, ?_, ?_, hgood1, hgid1⟩, by simp, rfl⟩
    · simp [hact1, hbk1]
    · intro _
      exact ⟨hact1, hbk1, hqe⟩
  · rw [he]
    have hqgood : ∀ b2 ∈ s1.queue, GoodBatch cfg b2 := by
      intro b2 hb2
      exact hgood1 b2 (by simp [allBatches, hb2])
    refine ⟨⟨hpend1, ?_, ?_, ?_, ?_, ?_⟩, ?_, rfl⟩
    · have : rest.length + 1 = s1.queue.length := by rw [hqe]; rfl
      simp
      omega
    · simp [hact1, hbk1]
    · intro habs
      simp at habs
    · intro b2 hb2
      simp only [allBatches, List.mem_append] at hb2
      rcases hb2 with (hb2 | hb2) | hb2
      · exact hqgood b2 (by rw [hqe]; exact List.mem_cons_of_mem _ hb2)
      · rw [hact1] at hb2
        simp at hb2
        subst hb2
        exact hqgood b2 (by rw [hqe]; exact List.mem_cons_self _ _)
      · rw [hbk1] at hb2
        simp at hb2
    · intro b2 hb2
      simp only [allBatches, List.mem_append] at hb2
      rcases hb2 with (hb2 | hb2) | hb2
      · exact hgid1 b2 (by simp [allBatches]; left; rw [hqe]; exact List.mem_cons_of_mem _ hb2)
      · rw [hact1] at hb2
        simp at hb2
        subst hb2
        exact hgid1 b2 (by simp [allBatches]; left; rw [hqe]; exact List.mem_cons_self _ _)
      · rw [hbk1] at hb2
        simp at hb2
    · intro b2 hb2
      simp at hb2
      subst hb2
      exact hqgood b (by rw [hqe]; exact List.mem_cons_self _ _)

theorem coalesceScan_length (item : Item) :
    ∀ l p, coalesceScan item l = some p → p.length = l.length := by
  intro l
  induction l with
  | nil => intro p h; simp [coalesceScan] at h
  | cons old rest ih =>
    intro p h
    rw [coalesceScan] at h
    by_cases hc : old.pageName = some item.key ∧ isCloseInTime old.timestamp item.timestamp = true
    · rw [if_pos hc] at h
      by_cases hn : (old.LCP.isSome || old.FCP.isSome) = false ∧
          (item.LCP.isSome || item.FCP.isSome) = true
      · rw [if_pos hn] at h
        cases h
        simp
      · rw [if_neg hn] at h
        cases h
        simp
    · rw [if_neg hc] at h
      cases hr : coalesceScan item rest with
      | none => rw [hr] at h; simp at h
      | some p' =>
        rw [hr] at h
        simp at h
        subst h
        simp [ih p' hr]

theorem enqueue_ok (cfg : Config) (hbs : 1 ≤ cfg.batchSize) (now : Int) (item : Item)
    (s : BPState) (h : Inv cfg s) :
    Inv cfg (enqueue cfg now item s).state ∧
    (∀ b ∈ (enqueue cfg now item s).invoked, GoodBatch cfg b) ∧
    s.nextGid ≤ (enqueue cfg now item s).state.nextGid := by
  obtain ⟨hpend, hq, hone, hidle, hgood, hgid⟩ := h
  unfold enqueue
  cases hc : coalesceScan item s.pending with
  | some p =>
    have hlen : p.length = s.pending.length := coalesceScan_length item s.pending p hc
    refine ⟨⟨?_, hq, hone, hidle, hgood, hgid⟩, by simp, le_refl _⟩
    show p.length < cfg.batchSize
    omega
  | none =>
    by_cases hexp : isExpired s.store item.key cfg.ttl now = false
    · rw [if_pos hexp]
      exact ⟨⟨hpend, hq, hone, hidle, hgood, hgid⟩, by simp, le_refl _⟩
    · rw [if_neg hexp]
      by_cases hif : item.key ∈ s.inFlight
      · rw [if_pos hif]
        exact ⟨⟨hpend, hq, hone, hidle, hgood, hgid⟩, by simp, le_refl _⟩
      · rw [if_neg hif]
        by_cases hbb : cfg.batchSize ≤ (s.pending ++ [item]).length
        · rw [if_pos hbb]
          have hlen2 : (s.pending ++ [item]).length = s.pending.length + 1 := by simp
          have heq : (s.pending ++ [item]).length = cfg.batchSize := by omega
          have htake : ((s.pending ++ [item]).take cfg.batchSize).length = cfg.batchSize := by
            simp [List.length_take]
            omega
          have hdrop : ((s.pending ++ [item]).drop cfg.batchSize).length = 0 := by
            simp [List.length_drop]
            omega
          have hres := enqueueBatch_ok cfg now ((s.pending ++ [item]).take cfg.batchSize)
            false { s with pending := (s.pending ++ [item]).drop cfg.batchSize }
            (by show ((s.pending ++ [item]).drop cfg.batchSize).length < cfg.batchSize; omega)
            hq hone hidle hgood hgid
            ⟨fun _ => htake, fun habs => by simp at habs⟩
          exact ⟨hres.1, hres.2.1, hres.2.2.1⟩
        · rw [if_neg hbb]
          refine ⟨⟨?_, hq, hone, hidle, hgood, hgid⟩, by simp, le_refl _⟩
          show (s.pending ++ [item]).length < cfg.batchSize
          omega

theorem flushDrainGo_nil (cfg : Config) (now : Int) :
    ∀ (fuel : Nat) (s : BPState), s.pending = [] →
      flushDrainGo cfg now fuel s = ⟨s, [], [], none⟩ := by
  intro fuel s h
  cases fuel with
  | zero => rfl
  | succ n =>
    unfold flushDrainGo
    rw [h]
    rfl

theorem flushDrain_ok (cfg : Config) (hbs : 1 ≤ cfg.batchSize) (now : Int) (s : BPState)
    (h : Inv cfg s) :
    Inv cfg (flushDrain cfg now s).state ∧
    (∀ b ∈ (flushDrain cfg now s).invoked, GoodBatch cfg b) ∧
    s.nextGid ≤ (flushDrain cfg now s).state.nextGid ∧
    (flushDrain cfg now s).formed = (if s.pending.isEmpty then [] else [s.pending]) := by
  obtain ⟨hpend, hq, hone, hidle, hgood, hgid⟩ := h
  unfold flushDrain
  cases hp : s.pending with
  | nil =>
    rw [flushDrainGo_nil cfg now _ s hp]
    exact ⟨⟨hpend, hq, hone, hidle, hgood, hgid⟩, by simp, le_refl _, rfl⟩
  | cons i0 irest =>
    simp only [List.length_cons]
    unfold flushDrainGo
    have hne : s.pending.isEmpty = false := by rw [hp]; rfl
    rw [hne]
    simp only [Bool.false_eq_true, if_false]
    have hple : s.pending.length ≤ cfg.batchSize := le_of_lt hpend
    have htake : s.pending.take cfg.batchSize = s.pending := List.take_of_length_le hple
    have hdrop : s.pending.drop cfg.batchSize = [] := List.drop_eq_nil_of_le hple
    have hres := enqueueBatch_ok cfg now (s.pending.take cfg.batchSize) true
      { s with pending := s.pending.drop cfg.batchSize }
      (by show (s.pending.drop cfg.batchSize).length < cfg.batchSize; rw [hdrop]; simpa using hbs)
      hq hone hidle hgood hgid
      ⟨fun habs => by simp at habs,
        fun _ => by
          rw [htake]
          constructor
          · rw [hp]; simp
          · exact hpend⟩
    obtain ⟨hinv1, hgood1, hmono1, hpend1⟩ := hres
    have hpend1' :
        (enqueueBatch cfg now (s.pending.take cfg.batchSize) true
          { s with pending := s.pending.drop cfg.batchSize }).state.pending = [] := by
      rw [hpend1]
      exact hdrop
    rw [flushDrainGo_nil cfg now irest.length _ hpend1']
    refine ⟨hinv1, ?_, hmono1, ?_⟩
    · intro b hb
      simp only [List.append_nil] at hb
      exact hgood1 b hb
    · rw [List.append_nil, enqueueBatch_formed, htake, hp]
      simp [List.isEmpty_cons]

theorem deliverySucceed_ok (cfg : Config) (now : Int) (s : BPState) (h : Inv cfg s) :
    Inv cfg (deliverySucceed now s).state ∧
    (∀ b ∈ (deliverySucceed now s).invoked, GoodBatch cfg b) ∧
    s.nextGid ≤ (deliverySucceed now s).state.nextGid := by
  obtain ⟨hpend, hq, hone, hidle, hgood, hgid⟩ := h
  unfold deliverySucceed
  cases hact : s.active with
  | nil => exact ⟨⟨hpend, hq, hone, hidle, hgood, hgid⟩, by simp, le_refl _⟩
  | cons b rest =>
    have hrl : rest.length = 0 ∧ s.backoff.length = 0 := by
      rw [hact] at hone
      simp at hone
      omega
    have hrest : rest = [] := List.length_eq_zero.mp hrl.1
    have hbk : s.backoff = [] := List.length_eq_zero.mp hrl.2
    subst hrest
    dsimp only
    have hfn := flushNext_ok_of cfg
      { s with active := [],
               inFlight := clearInFlight s.inFlight (b.batch.map (fun i => i.key)),
               store := (b.batch.map (fun i => i.key)).foldl (fun st k => mapSet st k now) s.store,
               processing := false }
      hpend hq rfl hbk
      (fun b2 hb2 => hgood b2 (by simp [allBatches]; exact Or.inl hb2))
      (fun b2 hb2 => hgid b2 (by simp [allBatches]; exact Or.inl hb2))
    refine ⟨hfn.1, ?_, le_of_eq hfn.2.2.symm⟩
    intro b2 hb2
    simp only [Option.mem_toList, Option.mem_def] at hb2
    exact hfn.2.1 b2 hb2

theorem deliveryFail_ok (cfg : Config) (s : BPState) (h : Inv cfg s) :
    Inv cfg (deliveryFail cfg s).state ∧
    (∀ b ∈ (deliveryFail cfg s).invoked, GoodBatch cfg b) ∧
    s.nextGid ≤ (deliveryFail cfg s).state.nextGid := by
  obtain ⟨hpend, hq, hone, hidle, hgood, hgid⟩ := h
  unfold deliveryFail
  cases hact : s.active with
  | nil => exact ⟨⟨hpend, hq, hone, hidle, hgood, hgid⟩, by simp, le_refl _⟩
  | cons b rest =>
    have hrl : rest.length = 0 ∧ s.backoff.length = 0 := by
      rw [hact] at hone
      simp at hone
      omega
    have hrest : rest = [] := List.length_eq_zero.mp hrl.1
    have hbk : s.backoff = [] := List.length_eq_zero.mp hrl.2
    subst hrest
    dsimp only
    have hptrue : s.processing = true := by
      cases hpv : s.processing
      · obtain ⟨ha, _, _⟩ := hidle hpv
        rw [hact] at ha
        simp at ha
      · rfl
    have hbgood : GoodBatch cfg b := hgood b (by simp [allBatches, hact])
    have hbgid : b.gid < s.nextGid := hgid b (by simp [allBatches, hact])
    by_cases hr : b.retryCount < cfg.maxRetry
    · rw [if_pos hr]
      refine ⟨⟨hpend, hq, ?_, ?_, ?_, ?_⟩, by simp, le_refl _⟩
      · show ([] : List Batch).length + (s.backoff ++ [b]).length ≤ 1
        simp [hbk]
      · intro habs
        rw [hptrue] at habs
        exact absurd habs (by simp)
      · intro b2 hb2
        simp only [allBatches, List.mem_append] at hb2
        rcases hb2 with (hb2 | hb2) | hb2
        · exact hgood b2 (by simp [allBatches]; exact Or.inl hb2)
        · simp at hb2
        · rw [hbk] at hb2
          simp at hb2
          subst hb2
          exact hbgood
      · intro b2 hb2
        simp only [allBatches, List.mem_append] at hb2
        rcases hb2 with (hb2 | hb2) | hb2
        · exact hgid b2 (by simp [allBatches]; exact Or.inl hb2)
        · simp at hb2
        · rw [hbk] at hb2
          simp at hb2
          subst hb2
          exact hbgid
    · rw [if_neg hr]
      have hfn := flushNext_ok_of cfg
        { s with active := [],
                 inFlight := clearInFlight s.inFlight (b.batch.map (fun i => i.key)),
                 processing := false }
        hpend hq rfl hbk
        (fun b2 hb2 => hgood b2 (by simp [allBatches]; exact Or.inl hb2))
        (fun b2 hb2 => hgid b2 (by simp [allBatches]; exact Or.inl hb2))
      refine ⟨hfn.1, ?_, le_of_eq hfn.2.2.symm⟩
      intro b2 hb2
      simp only [Option.mem_toList, Option.mem_def] at hb2
      exact hfn.2.1 b2 hb2

theorem timerFire_ok (cfg : Config) (s : BPState) (h : Inv cfg s) :
    Inv cfg (timerFire s).state ∧
    (∀ b ∈ (timerFire s).invoked, GoodBatch cfg b) ∧
    s.nextGid ≤ (timerFire s).state.nextGid := by
  obtain ⟨hpend, hq, hone, hidle, hgood, hgid⟩ := h
  unfold timerFire
  cases hbko : s.backoff with
  | nil => exact ⟨⟨hpend, hq, hone, hidle, hgood, hgid⟩, by simp, le_refl _⟩
  | cons b rest =>
    have hrl : rest.length = 0 ∧ s.active.length = 0 := by
      rw [hbko] at hone
      simp at hone
      omega
    have hrest : rest = [] := List.length_eq_zero.mp hrl.1
    have hact : s.active = [] := List.length_eq_zero.mp hrl.2
    subst hrest
    dsimp only
    have hbgood : GoodBatch cfg b := hgood b (by simp [allBatches, hbko])
    have hbgid : b.gid < s.nextGid := hgid b (by simp [allBatches, hbko])
    set incb : Batch := ⟨b.uuid, b.batch, b.retryCount + 1, b.fromFlush, b.gid⟩ with hincb
    set s1 : BPState :=
      { s with backoff := [], processing := false, queue := incb :: s.queue } with hs1
    rcases flushNext_cases s1 with ⟨hpx, hex⟩ | ⟨hpx, hqx, hex⟩ | ⟨b2, rest2, hpx, hqx, hex⟩
    · exfalso
      have : s1.processing = false := rfl
      rw [this] at hpx
      exact absurd hpx (by simp)
    · exfalso
      have : s1.queue = incb :: s.queue := rfl
      rw [this] at hqx
      simp at hqx
    · have hqeq : s1.queue = incb :: s.queue := rfl
      rw [hqeq] at hqx
      have hb2 : b2 = incb := by
        injection hqx with h1 h2
        exact h1.symm
      have hrest2 : rest2 = s.queue := by
        injection hqx with h1 h2
        exact h2.symm
      subst hb2
      subst hrest2
      rw [hex]
      have hincgood : GoodBatch cfg incb := by
        constructor
        · intro hffn
          exact hbgood.1 hffn
        · intro hfft
          exact hbgood.2 hfft
      refine ⟨⟨hpend, ?_, ?_, ?_, ?_, ?_⟩, ?_, le_refl _⟩
      · exact hq
      · show (s1.active ++ [incb]).length + ([] : List Batch).length ≤ 1
        have : s1.active = s.active := rfl
        simp [this, hact]
      · intro habs
        simp at habs
      · intro b3 hb3
        simp only [allBatches, List.mem_append] at hb3
        have hsa : s1.active = s.active := rfl
        rcases hb3 with (hb3 | hb3) | hb3
        · exact hgood b3 (by simp [allBatches]; exact Or.inl hb3)
        · rw [hsa, hact] at hb3
          simp at hb3
          subst hb3
          exact hincgood
        · simp at hb3
      · intro b3 hb3
        simp only [allBatches, List.mem_append] at hb3
        have hsa : s1.active = s.active := rfl
        rcases hb3 with (hb3 | hb3) | hb3
        · exact hgid b3 (by simp [allBatches]; exact Or.inl hb3)
        · rw [hsa, hact] at hb3
          simp at hb3
          subst hb3
          exact hbgid
        · simp at hb3
      · intro b3 hb3
        simp at hb3
        subst hb3
        exact hincgood

theorem poll_id (cfg : Config) (s : BPState) (h : Inv cfg s) : flushNext s = (s, none) := by
  rcases flushNext_cases s with ⟨_, he⟩ | ⟨_, _, he⟩ | ⟨b, rest, hp, hqe, he⟩
  · exact he
  · exact he
  · exfalso
    obtain ⟨_, _, hq⟩ := h.idleEmpty hp
    rw [hq] at hqe
    simp at hqe

theorem step_ok (cfg : Config) (hbs : 1 ≤ cfg.batchSize) (l : Label) (s : BPState)
    (h : Inv cfg s) :
    Inv cfg (step cfg l s).state ∧
    (∀ b ∈ (step cfg l s).invoked, GoodBatch cfg b) ∧
    s.nextGid ≤ (step cfg l s).state.nextGid := by
  cases l with
  | enq now item => exact enqueue_ok cfg hbs now item s h
  | flush now =>
    have hr := flushDrain_ok cfg hbs now s h
    exact ⟨hr.1, hr.2.1, hr.2.2.1⟩
  | poll =>
    dsimp only [step]
    rw [poll_id cfg s h]
    exact ⟨h, by simp, le_refl _⟩
  | ok now => exact deliverySucceed_ok cfg now s h
  | fail => exact deliveryFail_ok cfg s h
  | timer => exact timerFire_ok cfg s h

theorem initState_inv (cfg : Config) (hbs : 1 ≤ cfg.batchSize) : Inv cfg initState := by
  refine ⟨?_, ?_, ?_, ?_, ?_, ?_⟩
  · show ([] : List Item).length < cfg.batchSize
    simpa using hbs
  · show ([] : List Batch).length ≤ cfg.maxQueueSize
    simp
  · show ([] : List Batch).length + ([] : List Batch).length ≤ 1
    simp
  · intro _
    exact ⟨rfl, rfl, rfl⟩
  · intro b hb
    simp [allBatches, initState] at hb
  · intro b hb
    simp [allBatches, initState] at hb

theorem run_inv (cfg : Config) (hbs : 1 ≤ cfg.batchSize) :
    ∀ (ls : List Label) (s : BPState), Inv cfg s → Inv cfg (run cfg s ls) := by
  intro ls
  induction ls with
  | nil => intro s h; exact h
  | cons l tl ih =>
    intro s h
    rw [run]
    exact ih _ (step_ok cfg hbs l s h).1

theorem invocationsFrom_good (cfg : Config) (hbs : 1 ≤ cfg.batchSize) :
    ∀ (ls : List Label) (s : BPState), Inv cfg s →
      ∀ b ∈ invocationsFrom cfg s ls, GoodBatch cfg b := by
  intro ls
  induction ls with
  | nil =>
    intro s h b hb
    simp [invocationsFrom] at hb
  | cons l tl ih =>
    intro s h b hb
    rw [invocationsFrom] at hb
    rcases List.mem_append.mp hb with hb | hb
    · exact (step_ok cfg hbs l s h).2.1 b hb
    · exact ih _ (step_ok cfg hbs l s h).1 b hb

/-! ### Ghost-identity freshness: a dropped batch never re-enters the system -/

theorem gidFree_of_flushNext (s1 : BPState) (g : Nat)
    (hno1 : ∀ b ∈ allBatches s1, b.gid ≠ g) (hlt1 : g < s1.nextGid) :
    gidFree g (flushNext s1).1 ∧ ∀ b, (flushNext s1).2 = some b → b.gid ≠ g := by
  refine ⟨⟨?_, ?_⟩, ?_⟩
  · intro b hb
    exact hno1 b (flushNext_batches_mem s1 b hb)
  · have hn := (flushNext_frame s1).2.2.2.2
    rw [hn]
    exact hlt1
  · intro b hb
    exact hno1 b (flushNext_invoked_mem s1 b hb)

theorem enqueueBatch_gidFree (cfg : Config) (now : Int) (items : List Item) (ff : Bool)
    (s : BPState) (g : Nat) (h : gidFree g s) :
    gidFree g (enqueueBatch cfg now items ff s).state ∧
    ∀ b ∈ (enqueueBatch cfg now items ff s).invoked, b.gid ≠ g := by
  obtain ⟨hno, hlt⟩ := h
  by_cases hfull : cfg.maxQueueSize ≤ s.queue.length
  · rw [enqueueBatch_eq_full cfg now items ff s hfull]
    exact ⟨⟨hno, hlt⟩, by simp⟩
  · rw [enqueueBatch_eq_push cfg now items ff s hfull]
    set newb : Batch := ⟨"batch_" ++ toString now, items, 0, ff, s.nextGid⟩ with hnewb
    set s1 : BPState :=
      { s with inFlight := markInFlight s.inFlight (items.map (fun i => i.key)),
               queue := s.queue ++ [newb],
               nextGid := s.nextGid + 1 } with hs1
    have hno1 : ∀ b ∈ allBatches s1, b.gid ≠ g := by
      intro b hb
      have he : allBatches s1 = (s.queue ++ [newb]) ++ s.active ++ s.backoff := rfl
      have hm : b = newb ∨ b ∈ allBatches s := by
        rw [he] at hb
        simp only [List.mem_append, List.mem_singleton] at hb
        simp only [allBatches, List.mem_append]
        tauto
      rcases hm with hm | hm
      · subst hm
        show s.nextGid ≠ g
        omega
      · exact hno b hm
    have hlt1 : g < s1.nextGid := by
      show g < s.nextGid + 1
      omega
    have hfn := gidFree_of_flushNext s1 g hno1 hlt1
    refine ⟨hfn.1, ?_⟩
    intro b hb
    simp only [Option.mem_toList, Option.mem_def] at hb
    exact hfn.2 b hb

theorem enqueue_gidFree (cfg : Config) (now : Int) (item : Item) (s : BPState) (g : Nat)
    (h : gidFree g s) :
    gidFree g (enqueue cfg now item s).state ∧
    ∀ b ∈ (enqueue cfg now item s).invoked, b.gid ≠ g := by
  obtain ⟨hno, hlt⟩ := h
  unfold enqueue
  cases hc : coalesceScan item s.pending with
  | some p => exact ⟨⟨hno, hlt⟩, by simp⟩
  | none =>
    by_cases hexp : isExpired s.store item.key cfg.ttl now = false
    · rw [if_pos hexp]
      exact ⟨⟨hno, hlt⟩, by simp⟩
    · rw [if_neg hexp]
      by_cases hif : item.key ∈ s.inFlight
      · rw [if_pos hif]
        exact ⟨⟨hno, hlt⟩, by simp⟩
      · rw [if_neg hif]
        by_cases hbb : cfg.batchSize ≤ (s.pending ++ [item]).length
        · rw [if_pos hbb]
          exact enqueueBatch_gidFree cfg now _ false
            { s with pending := (s.pending ++ [item]).drop cfg.batchSize } g ⟨hno, hlt⟩
        · rw [if_neg hbb]
          exact ⟨⟨hno, hlt⟩, by simp⟩

theorem flushDrainGo_gidFree (cfg : Config) (now : Int) (g : Nat) :
    ∀ (fuel : Nat) (s : BPState), gidFree g s →
      gidFree g (flushDrainGo cfg now fuel s).state ∧
      ∀ b ∈ (flushDrainGo cfg now fuel s).invoked, b.gid ≠ g := by
  intro fuel
  induction fuel with
  | zero => intro s h; exact ⟨h, by simp [flushDrainGo]⟩
  | succ n ih =>
    intro s h
    unfold flushDrainGo
    by_cases hp : s.pending.isEmpty = true
    · rw [if_pos hp]
      exact ⟨h, by simp⟩
    · rw [if_neg hp]
      have h1 := enqueueBatch_gidFree cfg now (s.pending.take cfg.batchSize) true
        { s with pending := s.pending.drop cfg.batchSize } g h
      have h2 := ih _ h1.1
      refine ⟨h2.1, ?_⟩
      intro b hb
      simp only [List.mem_append] at hb
      rcases hb with hb | hb
      · exact h1.2 b hb
      · exact h2.2 b hb

theorem deliverySucceed_gidFree (now : Int) (s : BPState) (g : Nat) (h : gidFree g s) :
    gidFree g (deliverySucceed now s).state ∧
    ∀ b ∈ (deliverySucceed now s).invoked, b.gid ≠ g := by
  obtain ⟨hno, hlt⟩ := h
  unfold deliverySucceed
  cases hact : s.active with
  | nil => exact ⟨⟨hno, hlt⟩, by simp⟩
  | cons b rest =>
    dsimp only
    set s1 : BPState :=
      { s with active := rest,
               inFlight := clearInFlight s.inFlight (b.batch.map (fun i => i.key)),
               store := (b.batch.map (fun i => i.key)).foldl (fun st k => mapSet st k now) s.store,
               processing := false } with hs1
    have hno1 : ∀ b2 ∈ allBatches s1, b2.gid ≠ g := by
      intro b2 hb2
      have he : allBatches s1 = s.queue ++ rest ++ s.backoff := rfl
      rw [he] at hb2
      apply hno
      simp only [List.mem_append] at hb2
      simp only [allBatches, List.mem_append, hact, List.mem_cons]
      tauto
    have hfn := gidFree_of_flushNext s1 g hno1 hlt
    refine ⟨hfn.1, ?_⟩
    intro b2 hb2
    simp only [Option.mem_toList, Option.mem_def] at hb2
    exact hfn.2 b2 hb2

theorem deliveryFail_gidFree (cfg : Config) (s : BPState) (g : Nat) (h : gidFree g s) :
    gidFree g (deliveryFail cfg s).state ∧
    ∀ b ∈ (deliveryFail cfg s).invoked, b.gid ≠ g := by
  obtain ⟨hno, hlt⟩ := h
  unfold deliveryFail
  cases hact : s.active with
  | nil => exact ⟨⟨hno, hlt⟩, by simp⟩
  | cons b rest =>
    dsimp only
    have hmem : ∀ b2 : Batch,
        b2 ∈ s.queue ++ rest ++ (s.backoff ++ [b]) → b2.gid ≠ g := by
      intro b2 hb2
      apply hno
      simp only [List.mem_append, List.mem_singleton] at hb2
      simp only [allBatches, List.mem_append, hact, List.mem_cons]
      tauto
    by_cases hr : b.retryCount < cfg.maxRetry
    · rw [if_pos hr]
      refine ⟨⟨?_, hlt⟩, by simp⟩
      intro b2 hb2
      exact hmem b2 hb2
    · rw [if_neg hr]
      set s1 : BPState :=
        { s with active := rest,
                 inFlight := clearInFlight s.inFlight (b.batch.map (fun i => i.key)),
                 processing := false } with hs1
      have hno1 : ∀ b2 ∈ allBatches s1, b2.gid ≠ g := by
        intro b2 hb2
        have he : allBatches s1 = s.queue ++ rest ++ s.backoff := rfl
        rw [he] at hb2
        apply hmem
        simp only [List.mem_append] at hb2 ⊢
        tauto
      have hfn := gidFree_of_flushNext s1 g hno1 hlt
      refine ⟨hfn.1, ?_⟩
      intro b2 hb2
      simp only [Option.mem_toList, Option.mem_def] at hb2
      exact hfn.2 b2 hb2

theorem timerFire_gidFree (s : BPState) (g : Nat) (h : gidFree g s) :
    gidFree g (timerFire s).state ∧
    ∀ b ∈ (timerFire s).invoked, b.gid ≠ g := by
  obtain ⟨hno, hlt⟩ := h
  unfold timerFire
  cases hbko : s.backoff with
  | nil => exact ⟨⟨hno, hlt⟩, by simp⟩
  | cons b rest =>
    dsimp only
    set incb : Batch := ⟨b.uuid, b.batch, b.retryCount + 1, b.fromFlush, b.gid⟩ with hincb
    set s1 : BPState :=
      { s with backoff := rest, processing := false, queue := incb :: s.queue } with hs1
    have hno1 : ∀ b2 ∈ allBatches s1, b2.gid ≠ g := by
      intro b2 hb2
      have he : allBatches s1 = (incb :: s.queue) ++ s.active ++ rest := rfl
      rw [he] at hb2
      simp only [List.mem_append, List.mem_cons] at hb2
      have hmq : b2 ∈ s.queue → b2.gid ≠ g := fun hm =>
        hno b2 (by simp only [allBatches, List.mem_append]; tauto)
      have hma : b2 ∈ s.active → b2.gid ≠ g := fun hm =>
        hno b2 (by simp only [allBatches, List.mem_append]; tauto)
      have hmr : b2 ∈ rest → b2.gid ≠ g := fun hm =>
        hno b2 (by simp only [allBatches, List.mem_append, hbko, List.mem_cons]; tauto)
      have hmi : b2 = incb → b2.gid ≠ g := by
        intro hm
        rw [hm]
        show b.gid ≠ g
        exact hno b (by simp [allBatches, hbko])
      tauto
    have hfn := gidFree_of_flushNext s1 g hno1 hlt
    refine ⟨hfn.1, ?_⟩
    intro b2 hb2
    simp only [Option.mem_toList, Option.mem_def] at hb2
    exact hfn.2 b2 hb2

theorem step_gidFree (cfg : Config) (l : Label) (s : BPState) (g : Nat) (h : gidFree g s) :
    gidFree g (step cfg l s).state ∧ ∀ b ∈ (step cfg l s).invoked, b.gid ≠ g := by
  cases l with
  | enq now item => exact enqueue_gidFree cfg now item s g h
  | flush now => exact flushDrainGo_gidFree cfg now g s.pending.length s h
  | poll =>
    dsimp only [step]
    have hfn := gidFree_of_flushNext s g h.1 h.2
    refine ⟨hfn.1, ?_⟩
    intro b hb
    simp only [Option.mem_toList, Option.mem_def] at hb
    exact hfn.2 b hb
  | ok now => exact deliverySucceed_gidFree now s g h
  | fail => exact deliveryFail_gidFree cfg s g h
  | timer => exact timerFire_gidFree s g h

theorem invocationsFrom_gidFree (cfg : Config) (g : Nat) :
    ∀ (ls : List Label) (s : BPState), gidFree g s →
      ∀ b ∈ invocationsFrom cfg s ls, b.gid ≠ g := by
  intro ls
  induction ls with
  | nil =>
    intro s h b hb
    simp [invocationsFrom] at hb
  | cons l tl ih =>
    intro s h b hb
    rw [invocationsFrom] at hb
    rcases List.mem_append.mp hb with hb | hb
    · exact (step_gidFree cfg l s g h).2 b hb
    · exact ih _ (step_gidFree cfg l s g h).1 b hb

/-! ### Frame lemmas: which operations touch the durable store -/

theorem enqueueBatch_store (cfg : Config) (now : Int) (items : List Item) (ff : Bool)
    (s : BPState) : (enqueueBatch cfg now items ff s).state.store = s.store := by
  by_cases h : cfg.maxQueueSize ≤ s.queue.length
  · rw [enqueueBatch_eq_full cfg now items ff s h]
  · rw [enqueueBatch_eq_push cfg now items ff s h]
    exact (flushNext_frame _).2.1

theorem enqueue_store (cfg : Config) (now : Int) (item : Item) (s : BPState) :
    (enqueue cfg now item s).state.store = s.store := by
  unfold enqueue
  cases hc : coalesceScan item s.pending with
  | some p => rfl
  | none =>
    by_cases hexp : isExpired s.store item.key cfg.ttl now = false
    · rw [if_pos hexp]
    · rw [if_neg hexp]
      by_cases hif : item.key ∈ s.inFlight
      · rw [if_pos hif]
      · rw [if_neg hif]
        by_cases hbb : cfg.batchSize ≤ (s.pending ++ [item]).length
        · rw [if_pos hbb]
          exact enqueueBatch_store cfg now _ false _
        · rw [if_neg hbb]

theorem flushDrainGo_store (cfg : Config) (now : Int) :
    ∀ (fuel : Nat) (s : BPState), (flushDrainGo cfg now fuel s).state.store = s.store := by
  intro fuel
  induction fuel with
  | zero => intro s; rfl
  | succ n ih =>
    intro s
    unfold flushDrainGo
    by_cases hp : s.pending.isEmpty = true
    · rw [if_pos hp]
    · rw [if_neg hp]
      show (flushDrainGo cfg now n _).state.store = s.store
      rw [ih _]
      exact enqueueBatch_store cfg now _ true _

theorem deliveryFail_store (cfg : Config) (s : BPState) :
    (deliveryFail cfg s).state.store = s.store := by
  unfold deliveryFail
  cases hact : s.active with
  | nil => rfl
  | cons b rest =>
    dsimp only
    by_cases hr : b.retryCount < cfg.maxRetry
    · rw [if_pos hr]
    · rw [if_neg hr]
      exact (flushNext_frame _).2.1

theorem timerFire_store (s : BPState) : (timerFire s).state.store = s.store := by
  unfold timerFire
  cases hbko : s.backoff with
  | nil => rfl
  | cons b rest =>
    dsimp only
    exact (flushNext_frame _).2.1

/-! ### Characterisations of the retry paths -/

theorem deliveryFail_retry_eq (cfg : Config) (s : BPState) (b : Batch) (rest : List Batch)
    (hact : s.active = b :: rest) (hr : b.retryCount < cfg.maxRetry) :
    deliveryFail cfg s =
      ⟨{ s with
         active := rest,
         inFlight := clearInFlight s.inFlight (b.batch.map (fun i => i.key)),
         backoff := s.backoff ++ [b] },
        [], [], some (10 * 2 ^ b.retryCount)⟩ := by
  unfold deliveryFail
  rw [hact]
  dsimp only
  rw [if_pos hr]

theorem deliveryFail_final_eq (cfg : Config) (s : BPState) (b : Batch) (rest : List Batch)
    (hact : s.active = b :: rest) (hr : ¬ b.retryCount < cfg.maxRetry) :
    deliveryFail cfg s =
      ⟨(flushNext
          { s with
            active := rest,
            inFlight := clearInFlight s.inFlight (b.batch.map (fun i => i.key)),
            processing := false }).1,
        (flushNext
          { s with
            active := rest,
            inFlight := clearInFlight s.inFlight (b.batch.map (fun i => i.key)),
            processing := false }).2.toList,
        [], none⟩ := by
  unfold deliveryFail
  rw [hact]
  dsimp only
  rw [if_neg hr]

theorem timerFire_eq (s : BPState) (b : Batch) (rest : List Batch)
    (hbk : s.backoff = b :: rest) :
    timerFire s =
      ⟨{ s with
         backoff := rest,
         processing := true,
         queue := s.queue,
         active := s.active ++ [⟨b.uuid, b.batch, b.retryCount + 1, b.fromFlush, b.gid⟩] },
        [⟨b.uuid, b.batch, b.retryCount + 1, b.fromFlush, b.gid⟩], [], none⟩ := by
  unfold timerFire
  rw [hbk]
  rfl

theorem coalesceScan_found (item old : Item) (l2 : List Item)
    (hm : old.pageName = some item.key)
    (ht : isCloseInTime old.timestamp item.timestamp = true) :
    ∀ l1 : List Item,
      (∀ o ∈ l1, ¬(o.pageName = some item.key ∧ isCloseInTime o.timestamp item.timestamp = true)) →
      coalesceScan item (l1 ++ old :: l2) =
        some (l1 ++
          (if (old.LCP.isSome || old.FCP.isSome) = false ∧
              (item.LCP.isSome || item.FCP.isSome) = true
           then item else old) :: l2) := by
  intro l1
  induction l1 with
  | nil =>
    intro _
    rw [List.nil_append, coalesceScan, if_pos ⟨hm, ht⟩]
    by_cases hn : (old.LCP.isSome || old.FCP.isSome) = false ∧
        (item.LCP.isSome || item.FCP.isSome) = true
    · rw [if_pos hn, if_pos hn]
      rfl
    · rw [if_neg hn, if_neg hn]
      rfl
  | cons o0 l1t ih =>
    intro hno
    have hno0 : ¬(o0.pageName = some item.key ∧
        isCloseInTime o0.timestamp item.timestamp = true) :=
      hno o0 (List.mem_cons_self _ _)
    have hrest := ih (fun o ho => hno o (List.mem_cons_of_mem _ ho))
    rw [List.cons_append, coalesceScan, if_neg hno0, hrest]
    rfl

/-! ### Claim theorems -/

/-- C1, counterexample: the claim says two enqueued items with the same
`key` and timestamps within 500 ms collapse into a single pending entry
(here the old one would be replaced, as it lacks LCP/FCP and the new one
has LCP).  On the code this is false: the coalescing scan compares the
existing item's `pageName` — not its `key` — with the new item's `key`,
so two items with equal keys but no `pageName` are both kept pending and
the TTL/batching logic runs for the second one. -/
theorem C1_counterexample :
    ((step (mkConfig 5 5 3000 1) (Label.enq 3000 ⟨"a", none, 3000, none, none, ""⟩)
        initState).state.pending = [⟨"a", none, 3000, none, none, ""⟩]) ∧
    (⟨"a", none, 3000, none, none, ""⟩ : Item).key =
      (⟨"a", none, 3100, some 7, none, ""⟩ : Item).key ∧
    isCloseInTime (3000 : Int) 3100 = true ∧
    ((⟨"a", none, 3000, none, none, ""⟩ : Item).LCP.isSome ||
      (⟨"a", none, 3000, none, none, ""⟩ : Item).FCP.isSome) = false ∧
    ((⟨"a", none, 3100, some 7, none, ""⟩ : Item).LCP.isSome ||
      (⟨"a", none, 3100, some 7, none, ""⟩ : Item).FCP.isSome) = true ∧
    (step (mkConfig 5 5 3000 1) (Label.enq 3100 ⟨"a", none, 3100, some 7, none, ""⟩)
        (step (mkConfig 5 5 3000 1) (Label.enq 3000 ⟨"a", none, 3000, none, none, ""⟩)
          initState).state).state.pending =
      [⟨"a", none, 3000, none, none, ""⟩, ⟨"a", none, 3100, some 7, none, ""⟩] := by
  decide

/-- C1, amended: for every call to `enqueue(item)`, if the pending list
contains an entry whose `pageName` field equals the new item's `key` (for
items produced by this repository `pageName` always equals `key`) with
timestamps strictly within 500 ms, and no earlier pending entry matches,
the two collapse into a single pending entry: the existing entry is
replaced by the new item exactly when the existing one lacks primary
signal fields (LCP/FCP both absent) and the new one has at least one of
them, and otherwise the new item is silently discarded; in either case
enqueue returns immediately and no TTL, in-flight, or batching logic runs
for that item (the state is unchanged apart from that pending slot and
nothing is invoked). -/
theorem C1_coalesce_by_pageName (cfg : Config) (now : Int) (item old : Item)
    (l1 l2 : List Item) (s : BPState)
    (hp : s.pending = l1 ++ old :: l2)
    (hno : ∀ o ∈ l1,
      ¬(o.pageName = some item.key ∧ isCloseInTime o.timestamp item.timestamp = true))
    (hm : old.pageName = some item.key)
    (ht : isCloseInTime old.timestamp item.timestamp = true) :
    enqueue cfg now item s =
      ⟨{ s with
         pending := l1 ++
          (if (old.LCP.isSome || old.FCP.isSome) = false ∧
              (item.LCP.isSome || item.FCP.isSome) = true
           then item else old) :: l2 }, [], [], none⟩ := by
  unfold enqueue
  rw [hp, coalesceScan_found item old l2 hm ht l1 hno]

/-- Witness for C1's amended theorem at a concrete input: one pending
item for page "a" without LCP/FCP, and a new item for key "a" carrying an
LCP; the new item replaces the old one as the single pending entry. -/
theorem C1_coalesce_by_pageName_witness :
    (⟨[⟨"a", some "a", 3000, none, none, ""⟩], [], false, [], [], [], [], 0⟩ :
        BPState).pending =
      [] ++ (⟨"a", some "a", 3000, none, none, ""⟩ : Item) :: [] ∧
    (⟨"a", some "a", 3000, none, none, ""⟩ : Item).pageName =
      some (⟨"a", none, 3100, some 7, none, ""⟩ : Item).key ∧
    isCloseInTime (3000 : Int) 3100 = true ∧
    enqueue (mkConfig 5 5 3000 1) 3100 ⟨"a", none, 3100, some 7, none, ""⟩
        ⟨[⟨"a", some "a", 3000, none, none, ""⟩], [], false, [], [], [], [], 0⟩ =
      ⟨⟨[⟨"a", none, 3100, some 7, none, ""⟩], [], false, [], [], [], [], 0⟩,
        [], [], none⟩ := by
  refine ⟨rfl, rfl, by decide, ?_⟩
  exact C1_coalesce_by_pageName (mkConfig 5 5 3000 1) 3100
    ⟨"a", none, 3100, some 7, none, ""⟩ ⟨"a", some "a", 3000, none, none, ""⟩
    [] [] ⟨[⟨"a", some "a", 3000, none, none, ""⟩], [], false, [], [], [], [], 0⟩
    rfl (by simp) rfl (by decide)

/-- C2: for every sequence of event-loop tasks starting from the initial
state, every batch handed to the delivery function has exactly
`batchSize` items unless it was formed by `flushAll`; a `flushAll` batch
is non-empty and strictly smaller than `batchSize`, and one `flushAll`
drain forms at most one such batch — the final splice of the whole
pending list — so the only short batches are the final partial batches of
a `flushAll`. -/
theorem C2_batch_sizes (cfg : Config) (hbs : 1 ≤ cfg.batchSize) :
    (∀ (ls : List Label) (b : Batch), b ∈ invocationsFrom cfg initState ls →
      (b.fromFlush = false → b.batch.length = cfg.batchSize) ∧
      (b.fromFlush = true → 0 < b.batch.length ∧ b.batch.length < cfg.batchSize)) ∧
    (∀ (now : Int) (s : BPState), Inv cfg s →
      (flushDrain cfg now s).formed = (if s.pending.isEmpty then [] else [s.pending])) := by
  constructor
  · intro ls b hb
    exact invocationsFrom_good cfg hbs ls initState (initState_inv cfg hbs) b hb
  · intro now s h
    exact (flushDrain_ok cfg hbs now s h).2.2.2

/-- Witness for C2 at `batchSize = 2`. -/
theorem C2_batch_sizes_witness :
    1 ≤ (mkConfig 2 3 5000 1).batchSize ∧
    ((∀ (ls : List Label) (b : Batch),
        b ∈ invocationsFrom (mkConfig 2 3 5000 1) initState ls →
        (b.fromFlush = false → b.batch.length = (mkConfig 2 3 5000 1).batchSize) ∧
        (b.fromFlush = true →
          0 < b.batch.length ∧ b.batch.length < (mkConfig 2 3 5000 1).batchSize)) ∧
      (∀ (now : Int) (s : BPState), Inv (mkConfig 2 3 5000 1) s →
        (flushDrain (mkConfig 2 3 5000 1) now s).formed =
          (if s.pending.isEmpty then [] else [s.pending]))) :=
  ⟨by decide, C2_batch_sizes (mkConfig 2 3 5000 1) (by decide)⟩

/-- C3: with the delivery of batch `b` the sole unresolved one,
(i) if `b.retryCount < maxRetry` the rejection clears the batch's keys
from the in-flight set, keeps the queue untouched and schedules a timer
with delay `10 * 2 ^ retryCount` (base delay 10 ms) capturing `b`;
(ii) the timer callback re-inserts `b` at the front of the queue with
`retryCount + 1` and immediately invokes the delivery function again with
the same batch contents; (iii) if `retryCount ≥ maxRetry` the batch is
permanently dropped: it is in no component of the resulting state, it is
not the delivery started next, and along every subsequent sequence of
event-loop tasks the delivery function is never invoked with that batch
(ghost identities track JavaScript object identity). -/
theorem C3_retry_backoff_and_final_drop (cfg : Config) (b : Batch) (s : BPState)
    (hact : s.active = [b]) :
    (b.retryCount < cfg.maxRetry →
      deliveryFail cfg s =
        ⟨{ s with
           active := ([] : List Batch),
           inFlight := clearInFlight s.inFlight (b.batch.map (fun i => i.key)),
           backoff := s.backoff ++ [b] },
          [], [], some (10 * 2 ^ b.retryCount)⟩) ∧
    (∀ (s2 : BPState) (rest2 : List Batch), s2.backoff = b :: rest2 →
      (timerFire s2).invoked = [⟨b.uuid, b.batch, b.retryCount + 1, b.fromFlush, b.gid⟩] ∧
      (timerFire s2).state.queue = s2.queue ∧
      (timerFire s2).state.active =
        s2.active ++ [⟨b.uuid, b.batch, b.retryCount + 1, b.fromFlush, b.gid⟩]) ∧
    (cfg.maxRetry ≤ b.retryCount →
      (∀ β ∈ s.queue, β.gid ≠ b.gid) → (∀ β ∈ s.backoff, β.gid ≠ b.gid) →
      b.gid < s.nextGid →
      gidFree b.gid (deliveryFail cfg s).state ∧
      (∀ β ∈ (deliveryFail cfg s).invoked, β.gid ≠ b.gid) ∧
      (∀ ls : List Label, ∀ β ∈ invocationsFrom cfg (deliveryFail cfg s).state ls,
        β.gid ≠ b.gid)) := by
  refine ⟨?_, ?_, ?_⟩
  · intro hr
    exact deliveryFail_retry_eq cfg s b [] hact hr
  · intro s2 rest2 hbk
    rw [timerFire_eq s2 b rest2 hbk]
    exact ⟨rfl, rfl, rfl⟩
  · intro hr hqg hbkg hlt
    have hr' : ¬ b.retryCount < cfg.maxRetry := not_lt.mpr hr
    rw [deliveryFail_final_eq cfg s b [] hact hr']
    set s1 : BPState :=
      { s with
        active := ([] : List Batch),
        inFlight := clearInFlight s.inFlight (b.batch.map (fun i => i.key)),
        processing := false } with hs1
    have hno1 : ∀ β ∈ allBatches s1, β.gid ≠ b.gid := by
      intro β hβ
      have he : allBatches s1 = s.queue ++ [] ++ s.backoff := rfl
      rw [he] at hβ
      simp only [List.mem_append, List.not_mem_nil, or_false] at hβ
      rcases hβ with hβ | hβ
      · exact hqg β hβ
      · exact hbkg β hβ
    have hfn := gidFree_of_flushNext s1 b.gid hno1 hlt
    refine ⟨hfn.1, ?_, ?_⟩
    · intro β hβ
      simp only [Option.mem_toList, Option.mem_def] at hβ
      exact hfn.2 β hβ
    · intro ls β hβ
      exact invocationsFrom_gidFree cfg b.gid ls _ hfn.1 β hβ

/-- Witness for C3 with a one-item batch whose delivery is unresolved. -/
theorem C3_retry_backoff_and_final_drop_witness :
    (⟨[], [], true, [], ["a"],
        [⟨"batch_0", [⟨"a", none, 0, none, none, ""⟩], 0, false, 0⟩], [], 1⟩ :
      BPState).active =
      [⟨"batch_0", [⟨"a", none, 0, none, none, ""⟩], 0, false, 0⟩] ∧
    ((⟨"batch_0", [⟨"a", none, 0, none, none, ""⟩], 0, false, 0⟩ : Batch).retryCount <
        (mkConfig 2 5 3000 1).maxRetry →
      deliveryFail (mkConfig 2 5 3000 1)
          ⟨[], [], true, [], ["a"],
            [⟨"batch_0", [⟨"a", none, 0, none, none, ""⟩], 0, false, 0⟩], [], 1⟩ =
        ⟨{ (⟨[], [], true, [], ["a"],
              [⟨"batch_0", [⟨"a", none, 0, none, none, ""⟩], 0, false, 0⟩], [], 1⟩ :
            BPState) with
           active := ([] : List Batch),
           inFlight := clearInFlight ["a"]
            ((⟨"batch_0", [⟨"a", none, 0, none, none, ""⟩], 0, false, 0⟩ : Batch).batch.map
              (fun i => i.key)),
           backoff := [] ++ [⟨"batch_0", [⟨"a", none, 0, none, none, ""⟩], 0, false, 0⟩] },
          [], [],
          some (10 * 2 ^ (⟨"batch_0", [⟨"a", none, 0, none, none, ""⟩], 0, false, 0⟩ :
            Batch).retryCount)⟩) ∧
    (∀ (s2 : BPState) (rest2 : List Batch),
      s2.backoff = (⟨"batch_0", [⟨"a", none, 0, none, none, ""⟩], 0, false, 0⟩ : Batch) :: rest2 →
      (timerFire s2).invoked = [⟨"batch_0", [⟨"a", none, 0, none, none, ""⟩], 1, false, 0⟩] ∧
      (timerFire s2).state.queue = s2.queue ∧
      (timerFire s2).state.active =
        s2.active ++ [⟨"batch_0", [⟨"a", none, 0, none, none, ""⟩], 1, false, 0⟩]) ∧
    ((mkConfig 2 5 3000 1).maxRetry ≤
        (⟨"batch_0", [⟨"a", none, 0, none, none, ""⟩], 0, false, 0⟩ : Batch).retryCount →
      (∀ β ∈ (⟨[], [], true, [], ["a"],
          [⟨"batch_0", [⟨"a", none, 0, none, none, ""⟩], 0, false, 0⟩], [], 1⟩ :
        BPState).queue, β.gid ≠ 0) →
      (∀ β ∈ (⟨[], [], true, [], ["a"],
          [⟨"batch_0", [⟨"a", none, 0, none, none, ""⟩], 0, false, 0⟩], [], 1⟩ :
        BPState).backoff, β.gid ≠ 0) →
      (0 : Nat) < 1 →
      gidFree 0 (deliveryFail (mkConfig 2 5 3000 1)
        ⟨[], [], true, [], ["a"],
          [⟨"batch_0", [⟨"a", none, 0, none, none, ""⟩], 0, false, 0⟩], [], 1⟩).state ∧
      (∀ β ∈ (deliveryFail (mkConfig 2 5 3000 1)
          ⟨[], [], true, [], ["a"],
            [⟨"batch_0", [⟨"a", none, 0, none, none, ""⟩], 0, false, 0⟩], [], 1⟩).invoked,
        β.gid ≠ 0) ∧
      (∀ ls : List Label, ∀ β ∈ invocationsFrom (mkConfig 2 5 3000 1)
          (deliveryFail (mkConfig 2 5 3000 1)
            ⟨[], [], true, [], ["a"],
              [⟨"batch_0", [⟨"a", none, 0, none, none, ""⟩], 0, false, 0⟩], [], 1⟩).state ls,
        β.gid ≠ 0)) :=
  ⟨rfl, C3_retry_backoff_and_final_drop (mkConfig 2 5 3000 1)
    ⟨"batch_0", [⟨"a", none, 0, none, none, ""⟩], 0, false, 0⟩
    ⟨[], [], true, [], ["a"],
      [⟨"batch_0", [⟨"a", none, 0, none, none, ""⟩], 0, false, 0⟩], [], 1⟩ rfl⟩

/-- C4: if the durable store holds a last-success time `last` for the
item's key (the success path records `Date.now()` there for every key of
a delivered batch, see C9) and the item does not coalesce into a pending
entry, then while `now - last < ttl` the `enqueue` call is a complete
no-op — the item is discarded, the state is unchanged and no delivery is
invoked — and once `ttl` has elapsed the same item is admitted to the
pending list (shown here for the case where no batch is formed). -/
theorem C4_ttl_admission (cfg : Config) (now last : Int) (item : Item) (s : BPState)
    (hco : coalesceScan item s.pending = none)
    (hst : mlookup s.store item.key = some last) :
    (now - last < cfg.ttl → enqueue cfg now item s = ⟨s, [], [], none⟩) ∧
    (cfg.ttl ≤ now - last → item.key ∉ s.inFlight →
      (s.pending ++ [item]).length < cfg.batchSize →
      (enqueue cfg now item s).state.pending = s.pending ++ [item]) := by
  constructor
  · intro hlt
    unfold enqueue
    rw [hco]
    have hexp : isExpired s.store item.key cfg.ttl now = false := by
      unfold isExpired
      rw [hst]
      simp
      omega
    rw [if_pos hexp]
  · intro hge hif hlen
    unfold enqueue
    rw [hco]
    have hexp : isExpired s.store item.key cfg.ttl now = true := by
      unfold isExpired
      rw [hst]
      simp
      omega
    rw [if_neg (by rw [hexp]; simp), if_neg hif, if_neg (not_le.mpr hlen)]

/-- Witness for C4: key "a" delivered at time 5000, ttl 3000; an enqueue
at 6000 is dropped, an enqueue at 9000 is admitted. -/
theorem C4_ttl_admission_witness :
    coalesceScan (⟨"a", none, 6000, none, none, ""⟩ : Item)
      (⟨[], [], false, [("a", 5000)], [], [], [], 0⟩ : BPState).pending = none ∧
    mlookup (⟨[], [], false, [("a", 5000)], [], [], [], 0⟩ : BPState).store "a" =
      some 5000 ∧
    ((6000 : Int) - 5000 < (mkConfig 2 3 3000 1).ttl →
      enqueue (mkConfig 2 3 3000 1) 6000 (⟨"a", none, 6000, none, none, ""⟩ : Item)
          (⟨[], [], false, [("a", 5000)], [], [], [], 0⟩ : BPState) =
        ⟨(⟨[], [], false, [("a", 5000)], [], [], [], 0⟩ : BPState), [], [], none⟩) ∧
    ((mkConfig 2 3 3000 1).ttl ≤ (6000 : Int) - 5000 →
      (⟨"a", none, 6000, none, none, ""⟩ : Item).key ∉
        (⟨[], [], false, [("a", 5000)], [], [], [], 0⟩ : BPState).inFlight →
      ((⟨[], [], false, [("a", 5000)], [], [], [], 0⟩ : BPState).pending ++
        [(⟨"a", none, 6000, none, none, ""⟩ : Item)]).length <
          (mkConfig 2 3 3000 1).batchSize →
      (enqueue (mkConfig 2 3 3000 1) 6000 (⟨"a", none, 6000, none, none, ""⟩ : Item)
          (⟨[], [], false, [("a", 5000)], [], [], [], 0⟩ : BPState)).state.pending =
        (⟨[], [], false, [("a", 5000)], [], [], [], 0⟩ : BPState).pending ++
          [(⟨"a", none, 6000, none, none, ""⟩ : Item)]) :=
  ⟨rfl, rfl,
    (C4_ttl_admission (mkConfig 2 3 3000 1) 6000 5000
      (⟨"a", none, 6000, none, none, ""⟩ : Item)
      (⟨[], [], false, [("a", 5000)], [], [], [], 0⟩ : BPState) rfl rfl).1,
    (C4_ttl_admission (mkConfig 2 3 3000 1) 6000 5000
      (⟨"a", none, 6000, none, none, ""⟩ : Item)
      (⟨[], [], false, [("a", 5000)], [], [], [], 0⟩ : BPState) rfl rfl).2⟩

/-- C5: after every sequence of event-loop tasks from the initial state
the batch queue holds at most `maxQueueSize` batches, and a batch pushed
while the queue is already at `maxQueueSize` is dropped entirely with its
items: the state is returned unchanged, nothing is queued and nothing is
invoked (the producing call returns immediately — it never blocks). -/
theorem C5_queue_bound_drop_newest (cfg : Config) (hbs : 1 ≤ cfg.batchSize) :
    (∀ ls : List Label, (run cfg initState ls).queue.length ≤ cfg.maxQueueSize) ∧
    (∀ (now : Int) (items : List Item) (ff : Bool) (s : BPState),
      cfg.maxQueueSize ≤ s.queue.length →
      enqueueBatch cfg now items ff s = ⟨s, [], [items], none⟩) := by
  constructor
  · intro ls
    exact (run_inv cfg hbs ls initState (initState_inv cfg hbs)).queueLe
  · intro now items ff s h
    exact enqueueBatch_eq_full cfg now items ff s h

/-- Witness for C5 at `batchSize = 1`, `maxQueueSize = 1`. -/
theorem C5_queue_bound_drop_newest_witness :
    1 ≤ (mkConfig 1 1 3000 0).batchSize ∧
    ((∀ ls : List Label,
        (run (mkConfig 1 1 3000 0) initState ls).queue.length ≤
          (mkConfig 1 1 3000 0).maxQueueSize) ∧
      (∀ (now : Int) (items : List Item) (ff : Bool) (s : BPState),
        (mkConfig 1 1 3000 0).maxQueueSize ≤ s.queue.length →
        enqueueBatch (mkConfig 1 1 3000 0) now items ff s = ⟨s, [], [items], none⟩)) :=
  ⟨by decide, C5_queue_bound_drop_newest (mkConfig 1 1 3000 0) (by decide)⟩

/-- C6: at every reachable state at most one batch delivery is
unresolved, and whenever the delivery lock is free there is no unresolved
delivery at all — so under any interleaving of enqueues, flushes, retry
timers and delivery completions the processor never invokes the delivery
function while a previous invocation is still pending. -/
theorem C6_single_delivery_in_flight (cfg : Config) (hbs : 1 ≤ cfg.batchSize)
    (ls : List Label) :
    (run cfg initState ls).active.length ≤ 1 ∧
    ((run cfg initState ls).processing = false → (run cfg initState ls).active = []) := by
  have h := run_inv cfg hbs ls initState (initState_inv cfg hbs)
  refine ⟨?_, fun hp => (h.idleEmpty hp).1⟩
  have := h.oneActive
  omega

/-- Witness for C6 on a concrete trace: enqueue two items (forming and
delivering a batch), then let the delivery resolve. -/
theorem C6_single_delivery_in_flight_witness :
    1 ≤ (mkConfig 2 3 3000 1).batchSize ∧
    ((run (mkConfig 2 3 3000 1) initState
        [Label.enq 3000 ⟨"a", none, 3000, none, none, ""⟩,
         Label.enq 3000 ⟨"b", none, 3000, none, none, ""⟩,
         Label.ok 3500]).active.length ≤ 1 ∧
      ((run (mkConfig 2 3 3000 1) initState
          [Label.enq 3000 ⟨"a", none, 3000, none, none, ""⟩,
           Label.enq 3000 ⟨"b", none, 3000, none, none, ""⟩,
           Label.ok 3500]).processing = false →
        (run (mkConfig 2 3 3000 1) initState
          [Label.enq 3000 ⟨"a", none, 3000, none, none, ""⟩,
           Label.enq 3000 ⟨"b", none, 3000, none, none, ""⟩,
           Label.ok 3500]).active = [])) :=
  ⟨by decide, C6_single_delivery_in_flight (mkConfig 2 3 3000 1) (by decide)
    [Label.enq 3000 ⟨"a", none, 3000, none, none, ""⟩,
     Label.enq 3000 ⟨"b", none, 3000, none, none, ""⟩,
     Label.ok 3500]⟩

/-- C7, counterexample: the claim says the durable store never exceeds
its configured maximum entry count.  On the code this is false when a key
is the empty string: `deleteOldestEntry` guards the found key with a
JavaScript truthiness test (`if (oldestKey)`), so the empty-string key is
never evicted and a `set` of a new key while at capacity inserts without
evicting — with `maxEntries = 1`, after `set("", 0)` and `set("x", 0)`
the store holds 2 entries. -/
theorem C7_counterexample :
    ¬ ((LRU.pmSet 1 1 (LRU.pmSet 1 0 (⟨[], []⟩ : LRU.PMState Int) "" 0) "x" 0).map.length
        ≤ 1) := by
  decide

/-- C7, amended: provided the empty string is never used as a key, after
every `get`/`set`/`delete` on the capacity-bounded durable store the
entry count is at most the configured maximum, and a `set` of a new key
performed while the store is at capacity first evicts exactly the entry
selected by the scan for the globally smallest last-access timestamp
(the first entry attaining the minimum, in insertion order) before
inserting. -/
theorem C7_lru_capacity {α : Type} (maxEntries : Nat) (now : Int) (st : LRU.PMState α)
    (k : String) (v : α) (d : α)
    (hmax : 1 ≤ maxEntries)
    (hle : st.map.length ≤ maxEntries)
    (hsync : st.map.map Prod.fst = st.accessTime.map Prod.fst)
    (hkeys : ∀ k2 ∈ st.accessTime.map Prod.fst, k2 ≠ "") :
    (LRU.pmSet maxEntries now st k v).map.length ≤ maxEntries ∧
    (LRU.pmGet now st k d).1.map.length ≤ maxEntries ∧
    (LRU.pmDelete st k).1.map.length ≤ maxEntries ∧
    (mlookup st.map k = none → maxEntries ≤ st.map.length →
      ∃ q : String × Int, q ∈ st.accessTime ∧ (∀ p ∈ st.accessTime, q.2 ≤ p.2) ∧
        LRU.oldestKey st.accessTime = some q.1 ∧
        LRU.pmSet maxEntries now st k v =
          ⟨mapSet (mapDelete st.map q.1) k v, mapSet (mapDelete st.accessTime q.1) k now⟩) := by
  refine ⟨LRU.pmSet_length_le maxEntries now st k v hmax hle hsync hkeys, ?_, ?_, ?_⟩
  · rw [LRU.pmGet_map_eq]
    exact hle
  · exact le_trans (LRU.pmDelete_length_le st k) hle
  · intro hnone hcap
    have hnew : (mlookup st.map k).isSome = false := by rw [hnone]; rfl
    have hne : ¬ st.map.length = 0 := by omega
    have hlen : st.map.length = st.accessTime.length := by
      have hc := congrArg List.length hsync
      simpa using hc
    have hatne : st.accessTime ≠ [] := by
      intro h0
      rw [h0] at hlen
      simp at hlen
      exact hne (by simp [hlen])
    obtain ⟨p0, tl, hat⟩ := List.exists_cons_of_ne_nil hatne
    obtain ⟨q, hmem, hmin, hok, hdel⟩ := LRU.deleteOldest_spec st p0 tl hat hne hkeys
    refine ⟨q, hmem, hmin, hok, ?_⟩
    rw [LRU.pmSet_of_evict maxEntries now st k v hnew hcap, hdel]

/-- Witness for C7's amended theorem: store at capacity 1 holding key
"y"; setting new key "x" evicts "y" (the oldest and only entry). -/
theorem C7_lru_capacity_witness :
    1 ≤ 1 ∧
    (⟨[("y", (5 : Int))], [("y", 100)]⟩ : LRU.PMState Int).map.length ≤ 1 ∧
    (⟨[("y", (5 : Int))], [("y", 100)]⟩ : LRU.PMState Int).map.map Prod.fst =
      (⟨[("y", (5 : Int))], [("y", 100)]⟩ : LRU.PMState Int).accessTime.map Prod.fst ∧
    (∀ k2 ∈ (⟨[("y", (5 : Int))], [("y", 100)]⟩ :
        LRU.PMState Int).accessTime.map Prod.fst, k2 ≠ "") ∧
    ((LRU.pmSet 1 200 (⟨[("y", (5 : Int))], [("y", 100)]⟩ : LRU.PMState Int)
        "x" 7).map.length ≤ 1 ∧
      (LRU.pmGet 200 (⟨[("y", (5 : Int))], [("y", 100)]⟩ : LRU.PMState Int)
        "x" 0).1.map.length ≤ 1 ∧
      (LRU.pmDelete (⟨[("y", (5 : Int))], [("y", 100)]⟩ : LRU.PMState Int)
        "x").1.map.length ≤ 1 ∧
      (mlookup (⟨[("y", (5 : Int))], [("y", 100)]⟩ : LRU.PMState Int).map "x" = none →
        1 ≤ (⟨[("y", (5 : Int))], [("y", 100)]⟩ : LRU.PMState Int).map.length →
        ∃ q : String × Int,
          q ∈ (⟨[("y", (5 : Int))], [("y", 100)]⟩ : LRU.PMState Int).accessTime ∧
          (∀ p ∈ (⟨[("y", (5 : Int))], [("y", 100)]⟩ :
            LRU.PMState Int).accessTime, q.2 ≤ p.2) ∧
          LRU.oldestKey (⟨[("y", (5 : Int))], [("y", 100)]⟩ :
            LRU.PMState Int).accessTime = some q.1 ∧
          LRU.pmSet 1 200 (⟨[("y", (5 : Int))], [("y", 100)]⟩ : LRU.PMState Int) "x" 7 =
            ⟨mapSet (mapDelete (⟨[("y", (5 : Int))], [("y", 100)]⟩ :
                LRU.PMState Int).map q.1) "x" 7,
              mapSet (mapDelete (⟨[("y", (5 : Int))], [("y", 100)]⟩ :
                LRU.PMState Int).accessTime q.1) "x" 200⟩)) :=
  ⟨by decide, by decide, by decide, by decide,
    C7_lru_capacity 1 200 (⟨[("y", (5 : Int))], [("y", 100)]⟩ : LRU.PMState Int) "x" 7 0
      (by decide) (by decide) (by decide) (by decide)⟩

/-- C8: on construction the durable store's restoration loop restores
every well-formed persisted entry (an array of at least two elements,
destructured as `[key, value, timestamp]`, the timestamp defaulting to
`Date.now()` when not numeric) into memory, and skips malformed entries
individually (each is caught and logged inside the per-entry handler),
leaving the state untouched — so a single malformed entry never causes
the remaining well-formed entries of the persisted representation to be
discarded: deleting a malformed entry from the input does not change the
restored store at all. -/
theorem C8_restore_skips_malformed (now : Int) :
    (∀ (es1 es2 : List LRU.JVal) (bad : LRU.JVal), LRU.entryValid bad = false →
      LRU.restoreAll now (es1 ++ bad :: es2) = LRU.restoreAll now (es1 ++ es2)) ∧
    (∀ (es : List LRU.JVal) (k v : LRU.JVal) (rest : LRU.JArr),
      LRU.JVal.arr (.cons k (.cons v rest)) ∈ es →
      (mlookup (LRU.restoreAll now es).map k).isSome = true) ∧
    (∀ (es : List LRU.JVal) (k v : LRU.JVal) (rest : LRU.JArr),
      LRU.restoreAll now (es ++ [LRU.JVal.arr (.cons k (.cons v rest))]) =
        ⟨mapSet (LRU.restoreAll now es).map k v,
          mapSet (LRU.restoreAll now es).accessTime k (LRU.entryTs now rest)⟩) := by
  refine ⟨?_, ?_, ?_⟩
  · intro es1 es2 bad hbad
    unfold LRU.restoreAll
    rw [List.foldl_append, List.foldl_append, List.foldl_cons,
      LRU.restoreOne_invalid now _ bad hbad]
  · intro es k v rest h
    exact LRU.restoreFold_isSome now k es ⟨[], []⟩ (Or.inr ⟨v, rest, h⟩)
  · intro es k v rest
    unfold LRU.restoreAll
    rw [List.foldl_append]
    rfl

/-- Witness for C8: a `null` entry between two well-formed entries is
skipped and the two well-formed entries are restored unchanged. -/
theorem C8_restore_skips_malformed_witness :
    LRU.entryValid LRU.JVal.null = false ∧
    LRU.restoreAll 99
        [LRU.JVal.arr (.cons (.str "k1") (.cons (.num 5) (.cons (.num 10) .nil))),
         LRU.JVal.null,
         LRU.JVal.arr (.cons (.str "k2") (.cons (.num 6) .nil))] =
      LRU.restoreAll 99
        [LRU.JVal.arr (.cons (.str "k1") (.cons (.num 5) (.cons (.num 10) .nil))),
         LRU.JVal.arr (.cons (.str "k2") (.cons (.num 6) .nil))] ∧
    (mlookup (LRU.restoreAll 99
        [LRU.JVal.arr (.cons (.str "k1") (.cons (.num 5) (.cons (.num 10) .nil))),
         LRU.JVal.null,
         LRU.JVal.arr (.cons (.str "k2") (.cons (.num 6) .nil))]).map
      (LRU.JVal.str "k1")).isSome = true :=
  ⟨rfl,
    (C8_restore_skips_malformed 99).1
      [LRU.JVal.arr (.cons (.str "k1") (.cons (.num 5) (.cons (.num 10) .nil)))]
      [LRU.JVal.arr (.cons (.str "k2") (.cons (.num 6) .nil))]
      LRU.JVal.null rfl,
    (C8_restore_skips_malformed 99).2.1
      [LRU.JVal.arr (.cons (.str "k1") (.cons (.num 5) (.cons (.num 10) .nil))),
       LRU.JVal.null,
       LRU.JVal.arr (.cons (.str "k2") (.cons (.num 6) .nil))]
      (LRU.JVal.str "k1") (LRU.JVal.num 5) (.cons (.num 10) .nil)
      (List.mem_cons_self _ _)⟩

/-- C9: delivery failures leave the durable store unchanged — whether the
batch will be retried or is permanently dropped — and so does every other
operation except the success continuation: enqueues, the `flushAll`
drain, timer callbacks and the drain scheduler all preserve the store,
TTL admission (`isExpired`) answers identically for every key before and
after a failure, and only the success path rewrites the store, recording
`now` for every key of the delivered batch. -/
theorem C9_failure_store_frame (cfg : Config) (s : BPState) :
    (deliveryFail cfg s).state.store = s.store ∧
    (∀ (k : String) (ttl now : Int),
      isExpired (deliveryFail cfg s).state.store k ttl now = isExpired s.store k ttl now) ∧
    (∀ (now : Int) (item : Item), (enqueue cfg now item s).state.store = s.store) ∧
    (∀ now : Int, (flushDrain cfg now s).state.store = s.store) ∧
    (timerFire s).state.store = s.store ∧
    (flushNext s).1.store = s.store ∧
    (∀ (now : Int) (b : Batch) (rest : List Batch), s.active = b :: rest →
      (deliverySucceed now s).state.store =
        (b.batch.map (fun i => i.key)).foldl (fun st k => mapSet st k now) s.store) := by
  refine ⟨deliveryFail_store cfg s, ?_, fun now item => enqueue_store cfg now item s,
    fun now => flushDrainGo_store cfg now s.pending.length s, timerFire_store s,
    (flushNext_frame s).2.1, ?_⟩
  · intro k ttl now
    rw [deliveryFail_store cfg s]
  · intro now b rest hact
    unfold deliverySucceed
    rw [hact]
    dsimp only
    exact (flushNext_frame _).2.1

/-- Witness for C9 on a concrete failing state: one unresolved delivery
for key "a", durable store holding key "b". -/
theorem C9_failure_store_frame_witness :
    (deliveryFail (mkConfig 2 3 3000 1)
      (⟨[], [], true, [("b", 7)], ["a"],
        [⟨"batch_0", [⟨"a", none, 0, none, none, ""⟩], 1, false, 0⟩], [], 1⟩ :
        BPState)).state.store =
      (⟨[], [], true, [("b", 7)], ["a"],
        [⟨"batch_0", [⟨"a", none, 0, none, none, ""⟩], 1, false, 0⟩], [], 1⟩ :
        BPState).store ∧
    (⟨[], [], true, [("b", 7)], ["a"],
        [⟨"batch_0", [⟨"a", none, 0, none, none, ""⟩], 1, false, 0⟩], [], 1⟩ :
      BPState).active =
      ⟨"batch_0", [⟨"a", none, 0, none, none, ""⟩], 1, false, 0⟩ :: [] ∧
    (deliverySucceed 500
        (⟨[], [], true, [("b", 7)], ["a"],
          [⟨"batch_0", [⟨"a", none, 0, none, none, ""⟩], 1, false, 0⟩], [], 1⟩ :
          BPState)).state.store =
      ((⟨"batch_0", [⟨"a", none, 0, none, none, ""⟩], 1, false, 0⟩ : Batch).batch.map
        (fun i => i.key)).foldl (fun st k => mapSet st k 500)
        (⟨[], [], true, [("b", 7)], ["a"],
          [⟨"batch_0", [⟨"a", none, 0, none, none, ""⟩], 1, false, 0⟩], [], 1⟩ :
          BPState).store :=
  ⟨(C9_failure_store_frame (mkConfig 2 3 3000 1)
      (⟨[], [], true, [("b", 7)], ["a"],
        [⟨"batch_0", [⟨"a", none, 0, none, none, ""⟩], 1, false, 0⟩], [], 1⟩ :
        BPState)).1,
    rfl,
    (C9_failure_store_frame (mkConfig 2 3 3000 1)
      (⟨[], [], true, [("b", 7)], ["a"],
        [⟨"batch_0", [⟨"a", none, 0, none, none, ""⟩], 1, false, 0⟩], [], 1⟩ :
        BPState)).2.2.2.2.2.2 500
      ⟨"batch_0", [⟨"a", none, 0, none, none, ""⟩], 1, false, 0⟩ [] rfl⟩

/-- C10: when an `enqueue` forms a batch (pending reaches `batchSize`)
while the batch queue is already full, the batch is dropped whole: none
of its keys are marked in-flight — marking happens only when a batch is
actually pushed — so items with those keys still pass the in-flight
admission check afterwards; apart from the spliced items leaving the
pending list, every component of the processor state (queue, in-flight
set, durable store, lock, unresolved deliveries, timers) is unchanged,
and no delivery is invoked. -/
theorem C10_dropped_batch_frame (cfg : Config) (now : Int) (item : Item) (s : BPState)
    (hco : coalesceScan item s.pending = none)
    (hexp : isExpired s.store item.key cfg.ttl now = true)
    (hif : item.key ∉ s.inFlight)
    (hlen : cfg.batchSize ≤ (s.pending ++ [item]).length)
    (hfull : cfg.maxQueueSize ≤ s.queue.length) :
    enqueue cfg now item s =
      ⟨{ s with pending := (s.pending ++ [item]).drop cfg.batchSize }, [],
        [(s.pending ++ [item]).take cfg.batchSize], none⟩ ∧
    (enqueue cfg now item s).state.inFlight = s.inFlight ∧
    (enqueue cfg now item s).state.queue = s.queue ∧
    (enqueue cfg now item s).state.store = s.store ∧
    (enqueue cfg now item s).state.processing = s.processing ∧
    (enqueue cfg now item s).state.active = s.active ∧
    (enqueue cfg now item s).state.backoff = s.backoff ∧
    (∀ kk : String, kk ∈ (enqueue cfg now item s).state.inFlight ↔ kk ∈ s.inFlight) := by
  have hmain : enqueue cfg now item s =
      ⟨{ s with pending := (s.pending ++ [item]).drop cfg.batchSize }, [],
        [(s.pending ++ [item]).take cfg.batchSize], none⟩ := by
    unfold enqueue
    rw [hco, if_neg (by rw [hexp]; simp), if_neg hif, if_pos hlen]
    exact enqueueBatch_eq_full cfg now _ false _ hfull
  rw [hmain]
  exact ⟨rfl, rfl, rfl, rfl, rfl, rfl, rfl, fun kk => Iff.rfl⟩

/-- Witness for C10: `batchSize = 1`, `maxQueueSize = 1`, queue already
holding one batch; enqueueing a fresh item forms a batch that is dropped
without marking "c" in-flight. -/
theorem C10_dropped_batch_frame_witness :
    coalesceScan (⟨"c", none, 3000, none, none, ""⟩ : Item)
      (⟨[], [⟨"batch_0", [⟨"a", none, 0, none, none, ""⟩], 0, false, 0⟩], true,
        [], ["a"], [], [], 1⟩ : BPState).pending = none ∧
    isExpired (⟨[], [⟨"batch_0", [⟨"a", none, 0, none, none, ""⟩], 0, false, 0⟩], true,
        [], ["a"], [], [], 1⟩ : BPState).store "c" (mkConfig 1 1 3000 1).ttl 3000 = true ∧
    (⟨"c", none, 3000, none, none, ""⟩ : Item).key ∉
      (⟨[], [⟨"batch_0", [⟨"a", none, 0, none, none, ""⟩], 0, false, 0⟩], true,
        [], ["a"], [], [], 1⟩ : BPState).inFlight ∧
    (mkConfig 1 1 3000 1).maxQueueSize ≤
      (⟨[], [⟨"batch_0", [⟨"a", none, 0, none, none, ""⟩], 0, false, 0⟩], true,
        [], ["a"], [], [], 1⟩ : BPState).queue.length ∧
    (enqueue (mkConfig 1 1 3000 1) 3000 (⟨"c", none, 3000, none, none, ""⟩ : Item)
        (⟨[], [⟨"batch_0", [⟨"a", none, 0, none, none, ""⟩], 0, false, 0⟩], true,
          [], ["a"], [], [], 1⟩ : BPState)).state.inFlight =
      (⟨[], [⟨"batch_0", [⟨"a", none, 0, none, none, ""⟩], 0, false, 0⟩], true,
        [], ["a"], [], [], 1⟩ : BPState).inFlight ∧
    (enqueue (mkConfig 1 1 3000 1) 3000 (⟨"c", none, 3000, none, none, ""⟩ : Item)
        (⟨[], [⟨"batch_0", [⟨"a", none, 0, none, none, ""⟩], 0, false, 0⟩], true,
          [], ["a"], [], [], 1⟩ : BPState)).state.queue =
      (⟨[], [⟨"batch_0", [⟨"a", none, 0, none, none, ""⟩], 0, false, 0⟩], true,
        [], ["a"], [], [], 1⟩ : BPState).queue :=
  ⟨rfl, rfl, by decide, by decide,
    (C10_dropped_batch_frame (mkConfig 1 1 3000 1) 3000
      (⟨"c", none, 3000, none, none, ""⟩ : Item)
      (⟨[], [⟨"batch_0", [⟨"a", none, 0, none, none, ""⟩], 0, false, 0⟩], true,
        [], ["a"], [], [], 1⟩ : BPState) rfl rfl (by decide) (by decide) (by decide)).2.1,
    (C10_dropped_batch_frame (mkConfig 1 1 3000 1) 3000
      (⟨"c", none, 3000, none, none, ""⟩ : Item)
      (⟨[], [⟨"batch_0", [⟨"a", none, 0, none, none, ""⟩], 0, false, 0⟩], true,
        [], ["a"], [], [], 1⟩ : BPState) rfl rfl (by decide) (by decide) (by decide)).2.2.1⟩

end FPM
